import Mathlib

/-!
# coyim conversation pane: transcript compaction and delayed-message replay

A shallow embedding of `gui/conversation.go`.  The conversation pane is a
record of its logic fields, and every operation is a function from the state
before to the state after.  The two GTK text buffers (`history`, `pending`) are
modelled by their characters and their named marks, following the GTK contract
of the calls the source makes.  Operations run one at a time from start to end,
so the mutexes of the pane have no counterpart here.

Go identifiers that are Lean keywords carry a trailing underscore (`at_`,
`from_`, `to_`, `end_`).  Go `int` values (offsets, trace ids) are unbounded
`Int`: they are character counts and transport-assigned ids, far away from the
64-bit limits.  Strings are sequences of characters (valid UTF-8 is assumed).
-/

namespace Coyim

/-! ## Time and marks -/

/-- An instant of `time.Time` on the clock's line; `t.Before(u)` is `t < u`. -/
abbrev Time := Int

/-- A duration of `n` minutes, in nanoseconds as in Go's `time.Duration`. -/
def minutes (n : Int) : Time := n * 60 * 1000000000

/-- Source: `type timedMark struct { at time.Time; offset int }`. -/
structure timedMark where
  at_ : Time
  offset : Int
deriving DecidableEq, Repr

/-! ## GTK text buffers -/

/-- A named GTK text mark of a buffer, at a character offset. -/
structure TextMark where
  name : String
  pos : Nat
deriving DecidableEq, Repr

/-- A `gtki.TextBuffer`: its characters and its named marks.  Tags only style
the text and are not part of the content. -/
structure TextBuffer where
  text : List Char
  marks : List TextMark
deriving DecidableEq, Repr

namespace TextBuffer

/-- GTK `get_char_count`. -/
def GetCharCount (b : TextBuffer) : Int := b.text.length

/-- GTK `get_start_iter`: iterators are character offsets. -/
def GetStartIter (_b : TextBuffer) : Nat := 0

/-- GTK `get_end_iter`. -/
def GetEndIter (b : TextBuffer) : Nat := b.text.length

/-- GTK `get_iter_at_offset`: an offset that is negative or beyond the
character count yields the end iterator. -/
def GetIterAtOffset (b : TextBuffer) (off : Int) : Nat :=
  if 0 ≤ off ∧ off ≤ (b.text.length : Int) then off.toNat else b.text.length

/-- GTK `get_iter_at_mark`; there is no iterator for the nil handle. -/
def GetIterAtMark (b : TextBuffer) (mark : Option String) : Option Nat :=
  match mark with
  | none => none
  | some name => (b.marks.find? fun m => decide (m.name = name)).map fun m => m.pos

/-- GTK `insert` at an iterator; marks are created with right gravity
(`left_gravity = false`), so a mark at the insertion point moves behind the
inserted text. -/
def Insert (b : TextBuffer) (iter : Nat) (text : String) : TextBuffer :=
  { text := b.text.take iter ++ text.data ++ b.text.drop iter
    marks := b.marks.map fun m =>
      if m.pos < iter then m else { m with pos := m.pos + text.data.length } }

/-- GTK `delete`: removes the characters between the two iterators (put in
order first); a mark inside the range collapses to its start, a mark after it
moves left by the deleted length. -/
def Delete (b : TextBuffer) (s e : Nat) : TextBuffer :=
  let lo := min s e
  let hi := min (max s e) b.text.length
  { text := b.text.take lo ++ b.text.drop hi
    marks := b.marks.map fun m =>
      if m.pos ≤ lo then m
      else if m.pos ≤ hi then { m with pos := lo }
      else { m with pos := m.pos - (hi - lo) } }

/-- GTK `create_mark` with a name: refused (nil handle, buffer unchanged) when
a mark of that name exists. -/
def CreateMark (b : TextBuffer) (name : String) (iter : Nat) : TextBuffer × Option String :=
  if b.marks.any (fun m => decide (m.name = name)) then (b, none)
  else ({ b with marks := b.marks ++ [⟨name, iter⟩] }, some name)

end TextBuffer

/-! ## Messages and the delayed map -/

/-- Source: `type bufferSlice struct { start, end gtki.TextMark }`.  A mark
handle is the mark's name in its buffer; `none` is the nil handle. -/
structure bufferSlice where
  start : Option String
  end_ : Option String
deriving DecidableEq, Repr

/-- Source: `type sentMessage struct`. -/
structure sentMessage where
  message : String
  strippedMessage : String
  from_ : String
  to_ : String
  resource : String
  timestamp : Time
  queuedTimestamp : Time
  isEncrypted : Bool
  isDelayed : Bool
  isOutgoing : Bool
  isResent : Bool
  trace : Int
  coordinates : bufferSlice
deriving DecidableEq, Repr

/-- The zero value of `sentMessage`. -/
def sentMessage.zero : sentMessage :=
  { message := ""
    strippedMessage := ""
    from_ := ""
    to_ := ""
    resource := ""
    timestamp := 0
    queuedTimestamp := 0
    isEncrypted := false
    isDelayed := false
    isOutgoing := false
    isResent := false
    trace := 0
    coordinates := { start := none, end_ := none } }

/-- Source: `type taggableText struct { tag string; text string }`. -/
structure taggableText where
  tag : String
  text : String
deriving DecidableEq, Repr

/-- A Go `map[int]sentMessage` as an association list with at most one
binding per key. -/
abbrev delayedMap := List (Int × sentMessage)

/-- Go `dm, ok := m[k]`. -/
def delayedMap.get (m : delayedMap) (k : Int) : Option sentMessage :=
  match m with
  | [] => none
  | (k', v) :: rest => if k' = k then some v else delayedMap.get rest k

/-- Go `delete(m, k)`. -/
def delayedMap.delete (m : delayedMap) (k : Int) : delayedMap :=
  m.filter fun e => decide (e.1 ≠ k)

/-- Go `m[k] = v`: the binding of `k` is replaced or created. -/
def delayedMap.set (m : delayedMap) (k : Int) (v : sentMessage) : delayedMap :=
  (k, v) :: delayedMap.delete m k

/-! ## Collaborators -/

/-- What the pane reads from its collaborators: the successive readings of
`time.Now()`, `conversation.IsEncrypted()` of the conversation with a peer and
resource, `timestamp.Format(timeDisplay)`, `session.DisplayName()`, the result
of `conv.currentResource()` (the resource of the current peer, or the empty
string) and `ui.StripSomeHTML`. -/
structure Env where
  now : Nat → Time
  IsEncrypted : String → String → Bool
  Format : Time → String
  DisplayName : String
  currentResource : String
  StripSomeHTML : String → String

/-- The error value of `session.EncryptAndSendTo`: an `*access.OfflineError` or
any other error, with its text. -/
inductive sendError where
  | offline (text : String)
  | other (text : String)
deriving DecidableEq, Repr

/-- Go `err.Error()`. -/
def sendError.Error : sendError → String
  | .offline text => text
  | .other text => text

/-! ## The conversation pane -/

/-- Source: the logic fields of `type conversationPane struct`, with the two
text views reduced to their buffers and `scrollPending` to its visibility.
`clockReads` counts the readings of `time.Now()` taken so far. -/
structure conversationPane where
  to_ : String
  history : TextBuffer
  pending : TextBuffer
  scrollPendingVisible : Bool
  marks : List timedMark
  hidden : Bool
  delayed : delayedMap
  pendingDelayed : List Int
  shownPrivate : Bool
  isNewFingerprint : Bool
  hasSetNewFingerprint : Bool
  clockReads : Nat

/-- A reading of `time.Now()`: the next value of the clock. -/
def timeNow (env : Env) (conv : conversationPane) : Time × conversationPane :=
  (env.now conv.clockReads, { conv with clockReads := conv.clockReads + 1 })

/-- Modelled from the spec: `doInUIThread` is defined outside the files at hand;
the spec lets an append take effect at once, so the closure runs on the spot. -/
def doInUIThread (f : conversationPane → conversationPane) (conv : conversationPane) :
    conversationPane :=
  f conv

/-! ## Marks and compaction -/

/-- Source: `func (conv *conversationPane) markNow()`. -/
def markNow (env : Env) (conv : conversationPane) : conversationPane :=
  let buf := conv.history
  let offset := buf.GetCharCount
  let (now, conv) := timeNow env conv
  { conv with marks := conv.marks ++ [{ at_ := now, offset := offset }] }

/-- The `for ix, m := range conv.marks` loop of `reapOlderThan`, over the marks
from index `ix` on; the triple is `(newMarks, lastMark, isEnd)` and `len` is
`len(conv.marks)`.  `conv.marks[ix:]` is the list still to be visited. -/
def reapScan (t : Time) (len : Int) :
    Int → List timedMark → List timedMark × Option timedMark × Bool →
      List timedMark × Option timedMark × Bool
  | _, [], acc => acc
  | ix, m :: rest, (newMarks, lastMark, isEnd) =>
    if t < m.at_ then (m :: rest, lastMark, isEnd)
    else reapScan t len (ix + 1) rest (newMarks, some m, decide (len - 1 = ix))

/-- The update of the second loop of `reapOlderThan`: `nm.offset = nm.offset - off`. -/
def rebase (off : Int) (nm : timedMark) : timedMark :=
  { nm with offset := nm.offset - off }

/-- Source: `func (conv *conversationPane) reapOlderThan(t time.Time)`. -/
def reapOlderThan (t : Time) (conv : conversationPane) : conversationPane :=
  match reapScan t conv.marks.length 0 conv.marks ([], none, false) with
  | (_, none, _) => conv
  | (newMarks, some lastMark, isEnd) =>
    let off := lastMark.offset + 1
    let buf := conv.history
    let sit := buf.GetStartIter
    let eit := if isEnd then buf.GetEndIter else buf.GetIterAtOffset off
    let newMarks := if isEnd then [] else newMarks
    { conv with
      history := buf.Delete sit eit
      marks := newMarks.map (rebase off) }

/-- Source: `const reapInterval = time.Duration(1) * time.Hour`. -/
def reapInterval : Time := minutes 60

/-- Source: `func (conv *conversationPane) onHide()`. -/
def onHide (env : Env) (conv : conversationPane) : conversationPane :=
  let (now, conv) := timeNow env conv
  { reapOlderThan (now - reapInterval) conv with hidden := true }

/-- Source: `func (conv *conversationPane) onShow()`. -/
def onShow (env : Env) (conv : conversationPane) : conversationPane :=
  if conv.hidden then
    let (now, conv) := timeNow env conv
    { reapOlderThan (now - reapInterval) conv with hidden := false }
  else conv

/-! ## Writing into a buffer -/

/-- Source: `func insertAtEnd(buff gtki.TextBuffer, text string)`. -/
def insertAtEnd (buff : TextBuffer) (text : String) : TextBuffer :=
  buff.Insert buff.GetEndIter text

/-- Source: `func insertWithTag(buff gtki.TextBuffer, tagName, text string)`;
applying the tag leaves the characters as they are. -/
def insertWithTag (buff : TextBuffer) (_tagName : String) (text : String) : TextBuffer :=
  insertAtEnd buff text

/-- Source: `func insertTimestamp(buff gtki.TextBuffer, timestamp time.Time)`. -/
def insertTimestamp (env : Env) (buff : TextBuffer) (timestamp : Time) : TextBuffer :=
  let buff := insertWithTag buff "timestamp" "["
  let buff := insertWithTag buff "timestamp" (env.Format timestamp)
  insertWithTag buff "timestamp" "] "

/-- Source: `func insertEntry(buff gtki.TextBuffer, entry taggableText)`. -/
def insertEntry (buff : TextBuffer) (entry : taggableText) : TextBuffer :=
  if entry.tag ≠ "" then insertWithTag buff entry.tag entry.text
  else insertAtEnd buff entry.text

/-- Source: `func markInsertion(buff gtki.TextBuffer, trace, startOffset int)`;
`strconv.Itoa` is the decimal rendering. -/
def markInsertion (buff : TextBuffer) (trace startOffset : Int) :
    TextBuffer × Option String × Option String :=
  let insert := "insert" ++ toString trace
  let selBound := "selection_bound" ++ toString trace
  let (buff, start) := buff.CreateMark insert (buff.GetIterAtOffset startOffset)
  let (buff, end_) := buff.CreateMark selBound buff.GetEndIter
  (buff, start, end_)

/-- The text written by the closure of `appendSentMessage` into the chosen
buffer: separator, timestamps and entries, in this order. -/
def writeEntries (env : Env) (sent : sentMessage) (entries : List taggableText)
    (buff : TextBuffer) : TextBuffer :=
  let start := buff.GetCharCount
  let buff := if start ≠ 0 then insertAtEnd buff "\n" else buff
  let buff := if sent.isResent then insertTimestamp env buff sent.queuedTimestamp else buff
  let buff := insertTimestamp env buff sent.timestamp
  entries.foldl insertEntry buff

/-- Source: `func is(v bool, left, right string) string`. -/
def is (v : Bool) (left right : String) : String :=
  if v then left else right

/-- Go `unicode.IsSpace`. -/
def isSpace (c : Char) : Bool :=
  let n := c.toNat
  n = 0x09 || n = 0x0A || n = 0x0B || n = 0x0C || n = 0x0D || n = 0x20 || n = 0x85 ||
  n = 0xA0 || n = 0x1680 || (0x2000 ≤ n && n ≤ 0x200A) || n = 0x2028 || n = 0x2029 ||
  n = 0x202F || n = 0x205F || n = 0x3000

/-- Go `strings.TrimSpace`. -/
def TrimSpace (s : String) : String :=
  ⟨((s.data.dropWhile isSpace).reverse.dropWhile isSpace).reverse⟩

/-- Go `strings.HasPrefix`. -/
def HasPrefix (s pre : String) : Bool := pre.data.isPrefixOf s.data

/-- Go `strings.TrimPrefix`. -/
def TrimPrefix (s pre : String) : String :=
  if HasPrefix s pre then ⟨s.data.drop pre.data.length⟩ else s

/-- Source: `const mePrefix = "/me "`. -/
def mePrefix : String := "/me "

/-- The entries built by `appendMessage` for a message. -/
def messageEntries (sent : sentMessage) : List taggableText :=
  let msgTxt := sent.strippedMessage
  let msgHasMePrefix := HasPrefix (TrimSpace msgTxt) mePrefix
  let userTag := is sent.isOutgoing "outgoingUser" "incomingUser"
  let userTag := is sent.isDelayed "outgoingDelayedUser" userTag
  let textTag := is sent.isOutgoing "outgoingText" "incomingText"
  let textTag := is sent.isDelayed "outgoingDelayedText" textTag
  if sent.isDelayed then
    [⟨userTag, sent.from_⟩, ⟨"", ":  "⟩, ⟨textTag, msgTxt⟩]
  else if msgHasMePrefix then
    let msgTxt := TrimPrefix (TrimSpace msgTxt) mePrefix
    [⟨userTag, sent.from_ ++ " " ++ msgTxt⟩]
  else
    [⟨userTag, sent.from_⟩, ⟨"", ":  "⟩, ⟨textTag, msgTxt⟩]

/-! ## Appending messages and replaying delayed ones -/

/-- Source: `func (conv *conversationPane) storeDelayedMessage(trace int, message sentMessage)`. -/
def storeDelayedMessage (trace : Int) (message : sentMessage) (conv : conversationPane) :
    conversationPane :=
  { conv with delayed := conv.delayed.set trace message }

/-- Source: `haveShownPrivateNotification`. -/
def haveShownPrivateNotification (conv : conversationPane) : conversationPane :=
  { conv with shownPrivate := true }

/-- Source: `haveShownPrivateEndedNotification`. -/
def haveShownPrivateEndedNotification (conv : conversationPane) : conversationPane :=
  { conv with shownPrivate := false }

/-- Source: `showDelayedMessagesWindow`. -/
def showDelayedMessagesWindow (conv : conversationPane) : conversationPane :=
  { conv with scrollPendingVisible := true }

/-- Source: `hideDelayedMessagesWindow`. -/
def hideDelayedMessagesWindow (conv : conversationPane) : conversationPane :=
  { conv with scrollPendingVisible := false }

/-- Source: `func (conv *conversationPane) appendSentMessage(sent sentMessage,
attention bool, entries ...taggableText)`.  `conv.afterNewMessage()` only sets
the urgency hint of the window, which is no field of the pane. -/
def appendSentMessage (env : Env) (sent : sentMessage) (_attention : Bool)
    (entries : List taggableText) (conv : conversationPane) : conversationPane :=
  let conv := markNow env conv
  doInUIThread (fun conv =>
    if sent.isDelayed then
      let start := conv.pending.GetCharCount
      let buff := writeEntries env sent entries conv.pending
      let (buff, startMark, endMark) := markInsertion buff sent.trace start
      let sent := { sent with coordinates := { start := startMark, end_ := endMark } }
      storeDelayedMessage sent.trace sent { conv with pending := buff }
    else
      { conv with history := writeEntries env sent entries conv.history }) conv

/-- Source: `func (conv *conversationPane) appendMessage(sent sentMessage)`. -/
def appendMessage (env : Env) (sent : sentMessage) (conv : conversationPane) :
    conversationPane :=
  let msgTxt := sent.strippedMessage
  let msgHasMePrefix := HasPrefix (TrimSpace msgTxt) mePrefix
  let attention := !sent.isDelayed && !msgHasMePrefix
  appendSentMessage env sent attention (messageEntries sent) conv

/-- Source: `func (conv *conversationPane) displayNotification(notification string)`. -/
def displayNotification (env : Env) (notification : String) (conv : conversationPane) :
    conversationPane :=
  let (now, conv) := timeNow env conv
  appendSentMessage env { sentMessage.zero with timestamp := now } false
    [⟨"statusText", notification⟩] conv

/-- Source: `func (conv *conversationPane) sendMessage(message string) error`,
given what `session.EncryptAndSendTo` answers: `(trace, delayed, err)`. -/
def sendMessage (env : Env) (answer : Int × Bool × Option sendError) (message : String)
    (conv : conversationPane) : conversationPane × Option sendError :=
  let (trace, delayed, err) := answer
  match err with
  | some (.other text) => (conv, some (.other text))
  | some (.offline text) => (displayNotification env (sendError.Error (.offline text)) conv, none)
  | none =>
    let isEncrypted := env.IsEncrypted conv.to_ env.currentResource
    let (now, conv) := timeNow env conv
    let sent : sentMessage :=
      { sentMessage.zero with
        message := message
        strippedMessage := env.StripSomeHTML message
        from_ := env.DisplayName
        to_ := conv.to_
        resource := env.currentResource
        timestamp := now
        isEncrypted := isEncrypted
        isDelayed := delayed
        isOutgoing := true
        trace := trace }
    let conv := if delayed then showDelayedMessagesWindow conv else conv
    (appendMessage env sent conv, none)

/-- The re-stamping of a delayed message in `appendPendingDelayed`. -/
def restamp (isEncrypted : Bool) (now : Time) (dm : sentMessage) : sentMessage :=
  { dm with
    isEncrypted := isEncrypted
    queuedTimestamp := dm.timestamp
    timestamp := now
    isDelayed := false
    isResent := true }

/-- The body of the loop of `appendPendingDelayed` for one ready trace.  The
second component is the trace and the message handed to `conv.appendMessage`,
when the trace has an entry. -/
def replayTrace (env : Env) (ctrace : Int) (conv : conversationPane) :
    conversationPane × Option (Int × sentMessage) :=
  match conv.delayed.get ctrace with
  | none => (conv, none)
  | some dm =>
    let conv := { conv with delayed := conv.delayed.delete ctrace }
    let isEncrypted := env.IsEncrypted dm.to_ dm.resource
    let (now, conv) := timeNow env conv
    let dm := restamp isEncrypted now dm
    let conv := appendMessage env dm conv
    let conv := markNow env conv
    let conv := doInUIThread (fun conv =>
      let buff := conv.pending
      match buff.GetIterAtMark dm.coordinates.start, buff.GetIterAtMark dm.coordinates.end_ with
      | some s, some e => { conv with pending := buff.Delete s e }
      | _, _ => conv) conv
    (conv, some (ctrace, dm))

/-- The loop `for _, ctrace := range current` of `appendPendingDelayed`, with
the calls of `conv.appendMessage` it makes, in call order. -/
def replayAll (env : Env) :
    List Int → conversationPane → conversationPane × List (Int × sentMessage)
  | [], conv => (conv, [])
  | ctrace :: rest, conv =>
    let step := replayTrace env ctrace conv
    let more := replayAll env rest step.1
    (more.1, step.2.toList ++ more.2)

/-- Source: `func (conv *conversationPane) appendPendingDelayed()`. -/
def appendPendingDelayed (env : Env) (conv : conversationPane) : conversationPane :=
  let current := conv.pendingDelayed
  let conv := { conv with pendingDelayed := [] }
  let conv := (replayAll env current conv).1
  hideDelayedMessagesWindow conv

/-- The calls of `conv.appendMessage` made by `appendPendingDelayed`, in call
order, each with the ready trace it was made for. -/
def appendPendingDelayedCalls (env : Env) (conv : conversationPane) :
    List (Int × sentMessage) :=
  (replayAll env conv.pendingDelayed { conv with pendingDelayed := [] }).2

/-- Source: `func (conv *conversationPane) delayedMessageSent(trace int)`. -/
def delayedMessageSent (env : Env) (trace : Int) (conv : conversationPane) :
    conversationPane :=
  let conv := { conv with pendingDelayed := conv.pendingDelayed ++ [trace] }
  if conv.shownPrivate then appendPendingDelayed env conv else conv

/-- The calls of `conv.appendMessage` made by `delayedMessageSent`, in call order. -/
def delayedMessageSentCalls (env : Env) (trace : Int) (conv : conversationPane) :
    List (Int × sentMessage) :=
  let conv := { conv with pendingDelayed := conv.pendingDelayed ++ [trace] }
  if conv.shownPrivate then appendPendingDelayedCalls env conv else []

/-! ## Notions used in the statements -/

/-- The negation of the scan's test `t.Before(m.at)`: the mark is not after the cutoff. -/
def notAfter (t : Time) (m : timedMark) : Bool := decide (m.at_ ≤ t)

/-- Marks are in non-decreasing order of time. -/
def sortedByTime (ms : List timedMark) : Prop :=
  ms.Pairwise fun a b => a.at_ ≤ b.at_

/-- Marks are in non-decreasing order of offset. -/
def sortedByOffset (ms : List timedMark) : Prop :=
  ms.Pairwise fun a b => a.offset ≤ b.offset

/-- The ready traces at their first occurrence, in order. -/
def firstOccurrences : List Int → List Int
  | [] => []
  | k :: ks => k :: (firstOccurrences ks).filter fun j => decide (j ≠ k)

/-- The entries of the map `d` for the keys `keys`, in the order of the keys and
re-stamped, the first with clock reading number `n` and each next one three
readings later; keys without entry are passed over. -/
def replayedEntries (env : Env) (d : delayedMap) : Nat → List Int → List (Int × sentMessage)
  | _, [] => []
  | n, k :: ks =>
    match d.get k with
    | some dm =>
      (k, restamp (env.IsEncrypted dm.to_ dm.resource) (env.now n) dm) ::
        replayedEntries env d (n + 3) ks
    | none => replayedEntries env d n ks

/-- Writing messages one after the other at the end of a buffer, as
`appendMessage` does for a message that is not delayed. -/
def writeAll (env : Env) (buff : TextBuffer) (calls : List (Int × sentMessage)) : TextBuffer :=
  calls.foldl (fun b c => writeEntries env c.2 (messageEntries c.2) b) buff

/-- The characters written for one message at the end of a buffer: a newline
unless the buffer was empty, the queued timestamp of a resent message, the
timestamp, and the texts of the entries. -/
def entryText (env : Env) (sent : sentMessage) (entries : List taggableText)
    (bufferEmpty : Bool) : List Char :=
  (if bufferEmpty then [] else ['\n']) ++
  (if sent.isResent then '[' :: (env.Format sent.queuedTimestamp).data ++ [']', ' '] else []) ++
  ('[' :: (env.Format sent.timestamp).data ++ [']', ' ']) ++
  (entries.map fun e => e.text.data).flatten

/-- A call on the pane from the delivery path or from the view. -/
inductive paneCall where
  | delayedMessageSent (trace : Int)
  | appendPendingDelayed
deriving DecidableEq, Repr

/-- The state after a call. -/
def paneCall.run (env : Env) : paneCall → conversationPane → conversationPane
  | .delayedMessageSent trace, conv => Coyim.delayedMessageSent env trace conv
  | .appendPendingDelayed, conv => Coyim.appendPendingDelayed env conv

/-- The calls of `conv.appendMessage` made during a call. -/
def paneCall.appended (env : Env) : paneCall → conversationPane → List (Int × sentMessage)
  | .delayedMessageSent trace, conv => delayedMessageSentCalls env trace conv
  | .appendPendingDelayed, conv => appendPendingDelayedCalls env conv

/-- The state after a sequence of calls. -/
def runCalls (env : Env) : List paneCall → conversationPane → conversationPane
  | [], conv => conv
  | c :: cs, conv => runCalls env cs (c.run env conv)

/-- The calls of `conv.appendMessage` made during a sequence of calls, in order. -/
def appendedDuring (env : Env) : List paneCall → conversationPane → List (Int × sentMessage)
  | [], _ => []
  | c :: cs, conv => c.appended env conv ++ appendedDuring env cs (c.run env conv)

/-- How often an entry of trace `k` is among the appended messages. -/
def timesAppended (k : Int) (calls : List (Int × sentMessage)) : Nat :=
  (calls.map Prod.fst).count k

/-- The pane with its `hidden` flag set to `h` and everything else as it is. -/
def withHidden (h : Bool) (conv : conversationPane) : conversationPane :=
  { conv with hidden := h }

/-- The first statement of `delayedMessageSent`:
`conv.pendingDelayed = append(conv.pendingDelayed, trace)`. -/
def markSent (trace : Int) (conv : conversationPane) : conversationPane :=
  { conv with pendingDelayed := conv.pendingDelayed ++ [trace] }

/-! ## Operations of the pane and the order of its marks -/

/-- The clock never goes back: later readings of `time.Now()` are not earlier. -/
def clockMonotone (env : Env) : Prop :=
  ∀ i j : Nat, i ≤ j → env.now i ≤ env.now j

/-- The marks are sorted by time and none is later than the next reading of
the clock. -/
def marksInOrder (env : Env) (conv : conversationPane) : Prop :=
  sortedByTime conv.marks ∧ ∀ m ∈ conv.marks, m.at_ ≤ env.now conv.clockReads

/-- An operation on the pane. -/
inductive paneOp where
  | markNow
  | reapOlderThan (t : Time)
  | appendMessage (sent : sentMessage)
  | displayNotification (notification : String)
  | sendMessage (answer : Int × Bool × Option sendError) (message : String)
  | storeDelayedMessage (trace : Int) (message : sentMessage)
  | delayedMessageSent (trace : Int)
  | appendPendingDelayed
  | onHide
  | onShow

/-- The state after an operation. -/
def paneOp.apply (env : Env) : paneOp → conversationPane → conversationPane
  | .markNow, conv => Coyim.markNow env conv
  | .reapOlderThan t, conv => Coyim.reapOlderThan t conv
  | .appendMessage sent, conv => Coyim.appendMessage env sent conv
  | .displayNotification notification, conv => Coyim.displayNotification env notification conv
  | .sendMessage answer message, conv => (Coyim.sendMessage env answer message conv).1
  | .storeDelayedMessage trace message, conv => Coyim.storeDelayedMessage trace message conv
  | .delayedMessageSent trace, conv => Coyim.delayedMessageSent env trace conv
  | .appendPendingDelayed, conv => Coyim.appendPendingDelayed env conv
  | .onHide, conv => Coyim.onHide env conv
  | .onShow, conv => Coyim.onShow env conv

/-- The state after a sequence of operations. -/
def applyOps (env : Env) : List paneOp → conversationPane → conversationPane
  | [], conv => conv
  | op :: ops, conv => applyOps env ops (op.apply env conv)

/-! ## The verifier: PIN -/

/-- The decimal digits of `n`, most significant first; `fuel` bounds the number
of digits. -/
def decimalCore : Nat → Nat → List Char
  | 0, _ => []
  | fuel + 1, n =>
    if n < 10 then [Nat.digitChar n]
    else decimalCore fuel (n / 10) ++ [Nat.digitChar (n % 10)]

/-- The decimal rendering of a natural number, as `%d` prints it. -/
def decimal (n : Nat) : List Char := decimalCore (n + 1) n

/-- Go `fmt.Sprintf("%06d", val)` for a `val` that is not negative: the decimal
digits, padded with zeros on the left to a width of six. -/
def Sprintf06d (val : Nat) : String :=
  ⟨List.replicate (6 - (decimal val).length) '0' ++ decimal val⟩

/-- Source: `func createPIN() (string, error)`, given what
`rand.Int(rand.Reader, big.NewInt(1000000))` returns: a value or an error. -/
def createPIN (rand : Except String Nat) : String × Option String :=
  match rand with
  | .error err => ("", some err)
  | .ok val => (Sprintf06d val, none)

/-- The number that a string of decimal digits denotes. -/
def numericValue (digits : List Char) : Nat :=
  digits.foldl (fun acc c => 10 * acc + (c.toNat - 48)) 0

/-! ## The verifier -/

/-- Source: `type verifierState int` with its constants. -/
inductive verifierState where
  | unverified
  | peerRequestsSMP
  | waitingForAnswerFromPeer
  | finishedAnsweringPeer
  | success
  | failure
  | smpErr
  | cancelingSMP
deriving DecidableEq, Repr

/-- A GTK widget (dialog or info bar) as far as the verifier steers it: it is
shown, hidden or destroyed.  A widget fresh from its builder is hidden. -/
inductive widget where
  | shown
  | hidden
  | destroyed
deriving DecidableEq, Repr

namespace widget

/-- GTK `show`, `show_all` and `present`; a destroyed widget stays destroyed. -/
def Show : widget → widget
  | destroyed => destroyed
  | _ => shown

/-- GTK `hide`; a destroyed widget stays destroyed. -/
def Hide : widget → widget
  | destroyed => destroyed
  | _ => hidden

/-- GTK `destroy`. -/
def Destroy (_w : widget) : widget := destroyed

end widget

/-- A call on `v.session`. -/
inductive sessionCall where
  | StartSMP (peer resource question secret : String)
  | FinishSMP (peer resource secret : String)
deriving DecidableEq, Repr

/-- Source: `events.SMP`, by the types the switch of `handle` names. -/
inductive smpEvent where
  | SecretNeeded
  | Success
  | Failure
deriving DecidableEq, Repr

/-- Source: `type verifier struct`.  A widget field is `none` when it is nil.
`peerJid` is `v.peer.Jid`; `pinLabel` is the text of the PIN label of the PIN
dialog; `sessionCalls` are the calls made on `v.session`, `notified` the
builder names of the info bars handed to `v.notifier.notify` and `dialogs` the
builder names of the dialogs shown without being kept in a field, each in call
order. -/
structure verifier where
  state : verifierState
  peerJid : String
  currentResource : String
  newPinDialog : Option widget
  enterPinDialog : Option widget
  waitingForSMP : Option widget
  peerRequestsSMP : Option widget
  verificationWarning : Option widget
  pinLabel : String
  sessionCalls : List sessionCall
  notified : List String
  dialogs : List String
deriving DecidableEq, Repr

/-- Source: `func newVerifier(conv *conversationPane, ds *displaySettings) *verifier`,
for a conversation with a current peer. -/
def newVerifier (peerJid currentResource : String) : verifier :=
  { state := .unverified
    peerJid := peerJid
    currentResource := currentResource
    newPinDialog := none
    enterPinDialog := none
    waitingForSMP := none
    peerRequestsSMP := none
    verificationWarning := none
    pinLabel := ""
    sessionCalls := []
    notified := []
    dialogs := [] }

/-- A method call on `v.verificationWarning`; on a nil field the call panics,
which is the result `none`. -/
def onVerificationWarning (f : widget → widget) (v : verifier) : Option verifier :=
  match v.verificationWarning with
  | none => none
  | some w => some { v with verificationWarning := some (f w) }

/-- Source: `func (v *verifier) buildStartVerificationNotification()`. -/
def buildStartVerificationNotification (v : verifier) : verifier :=
  { v with
    verificationWarning := some widget.shown
    notified := v.notified ++ ["StartVerificationNotification"] }

/-- Source: the `close_verification` handler of `buildStartVerificationNotification`. -/
def closeVerification (v : verifier) : Option verifier :=
  onVerificationWarning widget.Hide v

/-- Source: `func (v *verifier) removeInProgressNotifications()`. -/
def removeInProgressNotifications (v : verifier) : verifier :=
  let v := if v.peerRequestsSMP.isSome then { v with peerRequestsSMP := none } else v
  if v.waitingForSMP.isSome then { v with waitingForSMP := none } else v

/-- Source: `func (v *verifier) disableNotifications()`. -/
def disableNotifications (v : verifier) : Option verifier :=
  match v.state with
  | .success => onVerificationWarning widget.Destroy (removeInProgressNotifications v)
  | .failure => onVerificationWarning widget.Show (removeInProgressNotifications v)
  | .waitingForAnswerFromPeer => onVerificationWarning widget.Hide v
  | .peerRequestsSMP => onVerificationWarning widget.Hide v
  | .smpErr => onVerificationWarning widget.Hide v
  | .finishedAnsweringPeer => some (removeInProgressNotifications v)
  | .cancelingSMP => some (removeInProgressNotifications v)
  | .unverified => some v

/-- Source: `func (v *verifier) showNotificationWhenWeCannotGeneratePINForSMP(err error)`. -/
def showNotificationWhenWeCannotGeneratePINForSMP (_err : String) (v : verifier) : verifier :=
  { v with notified := v.notified ++ ["CannotVerifyWithSMP"] }

/-- Source: `func (v *verifier) smpError(err error)`. -/
def smpError (err : String) (v : verifier) : Option verifier :=
  (disableNotifications { v with state := .smpErr }).map
    (showNotificationWhenWeCannotGeneratePINForSMP err)

/-- The question that `showNewPinDialog` passes to `StartSMP`. -/
def pinQuestion : String := "Please enter the PIN that your contact shared with you."

/-- Source: `func (v *verifier) showNewPinDialog()`, given what the random
source returns to `createPIN`. -/
def showNewPinDialog (rand : Except String Nat) (v : verifier) : Option verifier :=
  let v := { v with newPinDialog := some widget.hidden }
  let (pin, err) := createPIN rand
  let afterError : Option verifier :=
    match err with
    | some e => smpError e { v with newPinDialog := v.newPinDialog.map widget.Destroy }
    | none => some v
  afterError.map fun v =>
    let v := { v with pinLabel := pin }
    let v := { v with
      sessionCalls := v.sessionCalls ++
        [sessionCall.StartSMP v.peerJid v.currentResource pinQuestion pin] }
    { v with newPinDialog := v.newPinDialog.map widget.Show }

/-- Source: the `clicked` handler of `button_verify` in
`buildStartVerificationNotification`. -/
def verifyButtonClicked (rand : Except String Nat) (v : verifier) : Option verifier :=
  if v.newPinDialog.isSome then some { v with newPinDialog := v.newPinDialog.map widget.Show }
  else showNewPinDialog rand v

/-- Source: `func (v *verifier) showWaitingForPeerToCompleteSMPDialog()`. -/
def showWaitingForPeerToCompleteSMPDialog (v : verifier) : Option verifier :=
  (disableNotifications { v with state := .waitingForAnswerFromPeer }).map fun v =>
    { v with
      waitingForSMP := some widget.shown
      notified := v.notified ++ ["WaitingSMPComplete"] }

/-- Source: `func (v *verifier) showSMPHasAlreadyStarted(peerName string)`. -/
def showSMPHasAlreadyStarted (v : verifier) : Option verifier :=
  let v := { v with dialogs := v.dialogs ++ ["SMPHasAlreadyStarted"] }
  match v.newPinDialog with
  | none => none
  | some _ => some { v with newPinDialog := none }

/-- Source: the `close_share_pin` handler of `showNewPinDialog`. -/
def newPinDialogClosed (v : verifier) : Option verifier :=
  if v.peerRequestsSMP.isSome then showSMPHasAlreadyStarted v
  else
    (showWaitingForPeerToCompleteSMPDialog v).bind fun v =>
      match v.newPinDialog with
      | none => none
      | some _ => some { v with newPinDialog := none }

/-- Source: the `clicked` handler of `cancel_button` in
`showWaitingForPeerToCompleteSMPDialog`. -/
def waitingCancelClicked (v : verifier) : Option verifier :=
  (disableNotifications { v with state := .cancelingSMP }).bind
    (onVerificationWarning widget.Show)

/-- Source: `func (v *verifier) buildEnterPinDialog()`. -/
def buildEnterPinDialog (v : verifier) : verifier :=
  { v with enterPinDialog := some widget.shown }

/-- Source: the `close_share_pin` handler of `buildEnterPinDialog`, with the
text of the PIN entry. -/
def enterPinDialogClosed (pin : String) (v : verifier) : Option verifier :=
  (disableNotifications { v with state := .finishedAnsweringPeer }).bind fun v =>
    (showWaitingForPeerToCompleteSMPDialog v).bind fun v =>
      let v := { v with
        sessionCalls := v.sessionCalls ++ [sessionCall.FinishSMP v.peerJid v.currentResource pin] }
      match v.enterPinDialog with
      | none => none
      | some _ => some { v with enterPinDialog := none }

/-- Source: `func (v *verifier) displayRequestForSecret()`. -/
def displayRequestForSecret (v : verifier) : Option verifier :=
  (disableNotifications v).map fun v =>
    { v with
      peerRequestsSMP := some widget.shown
      notified := v.notified ++ ["PeerRequestsSMP"] }

/-- Source: the `clicked` handler of `verification_button` in `displayRequestForSecret`. -/
def verificationButtonClicked (v : verifier) : verifier :=
  if v.enterPinDialog.isSome then { v with enterPinDialog := v.enterPinDialog.map widget.Show }
  else buildEnterPinDialog v

/-- Source: the `clicked` handler of `cancel_button` in `displayRequestForSecret`. -/
def requestCancelClicked (v : verifier) : Option verifier :=
  match v.peerRequestsSMP with
  | none => none
  | some _ => onVerificationWarning widget.Show { v with peerRequestsSMP := none }

/-- Source: `func (v *verifier) displayVerificationSuccess()`. -/
def displayVerificationSuccess (v : verifier) : Option verifier :=
  disableNotifications { v with dialogs := v.dialogs ++ ["VerificationSucceeded"] }

/-- Source: `func (v *verifier) displayVerificationFailure()`. -/
def displayVerificationFailure (v : verifier) : verifier :=
  { v with dialogs := v.dialogs ++ ["VerificationFailed"] }

/-- Source: the `clicked` handler of `try_later` in `displayVerificationFailure`. -/
def tryLaterClicked (v : verifier) : Option verifier :=
  disableNotifications v

/-- Source: `func (v *verifier) handle(ev events.SMP)`. -/
def handle (ev : smpEvent) (v : verifier) : Option verifier :=
  match ev with
  | .SecretNeeded => displayRequestForSecret { v with state := .peerRequestsSMP }
  | .Success => displayVerificationSuccess { v with state := .success }
  | .Failure => some (displayVerificationFailure { v with state := .failure })

/-- The statements of the `close_share_pin` handler of `buildEnterPinDialog`,
in source order, with the text of the PIN entry: the assignment of the state,
`v.disableNotifications()`, `v.showWaitingForPeerToCompleteSMPDialog()`,
`v.session.FinishSMP(v.peer.Jid, v.currentResource, pin)`,
`v.enterPinDialog.Destroy()` and `v.enterPinDialog = nil`. -/
def enterPinDialogClosedSteps (pin : String) : List (verifier → Option verifier) :=
  [ fun v => some { v with state := .finishedAnsweringPeer },
    disableNotifications,
    showWaitingForPeerToCompleteSMPDialog,
    fun v => some { v with
      sessionCalls := v.sessionCalls ++ [sessionCall.FinishSMP v.peerJid v.currentResource pin] },
    fun v => v.enterPinDialog.map fun w => { v with enterPinDialog := some w.Destroy },
    fun v => some { v with enterPinDialog := none } ]

/-- The verifier after each statement of a handler, in order; `none` when a
statement panics. -/
def runSteps : List (verifier → Option verifier) → verifier → Option (List verifier)
  | [], _ => some []
  | step :: rest, v => (step v).bind fun v => (runSteps rest v).map fun vs => v :: vs

/-- A call of `session.FinishSMP`. -/
def sessionCall.isFinishSMP : sessionCall → Bool
  | .FinishSMP _ _ _ => true
  | _ => false

/-- Something that happens to the verifier: the notification is built, one of
the handlers connected to its widgets runs, or an SMP event arrives. -/
inductive verifierOp where
  | buildStartVerificationNotification
  | closeVerification
  | verifyButtonClicked (rand : Except String Nat)
  | newPinDialogClosed
  | waitingCancelClicked
  | verificationButtonClicked
  | enterPinDialogClosed (pin : String)
  | requestCancelClicked
  | tryLaterClicked
  | handle (ev : smpEvent)

/-- The verifier after something happened to it; `none` when the code panics. -/
def verifierOp.apply : verifierOp → verifier → Option verifier
  | .buildStartVerificationNotification, v => some (Coyim.buildStartVerificationNotification v)
  | .closeVerification, v => Coyim.closeVerification v
  | .verifyButtonClicked rand, v => Coyim.verifyButtonClicked rand v
  | .newPinDialogClosed, v => Coyim.newPinDialogClosed v
  | .waitingCancelClicked, v => Coyim.waitingCancelClicked v
  | .verificationButtonClicked, v => some (Coyim.verificationButtonClicked v)
  | .enterPinDialogClosed pin, v => Coyim.enterPinDialogClosed pin v
  | .requestCancelClicked, v => Coyim.requestCancelClicked v
  | .tryLaterClicked, v => Coyim.tryLaterClicked v
  | .handle ev, v => Coyim.handle ev v

/-- The verifier after a sequence of happenings. -/
def applyVerifierOps : List verifierOp → verifier → Option verifier
  | [], v => some v
  | op :: ops, v => (op.apply v).bind (applyVerifierOps ops)

/-! ## Known fingerprints -/

/-- Modelled from the spec: a fingerprint seen for a peer with its trusted
flag (`config.Fingerprint`; the `config` package is not among the files at
hand).  A fingerprint is a sequence of bytes. -/
structure knownFingerprint where
  fingerprint : List Nat
  trusted : Bool
deriving DecidableEq, Repr

/-- Modelled from the spec: the trust record of a peer (`config.Peer`): the
fingerprints ever seen for it. -/
structure peerRecord where
  userID : String
  fingerprints : List knownFingerprint
deriving DecidableEq, Repr

/-- Modelled from the spec: the peers known to the configuration of the account. -/
abbrev accountConfig := List peerRecord

/-- Modelled from the spec: `conf.GetPeer(uid)`, the record of a peer when
the peer is known. -/
def GetPeer (conf : accountConfig) (uid : String) : Option peerRecord :=
  conf.find? fun p => decide (p.userID = uid)

/-- Modelled from the spec: `conf.EnsurePeer(uid)`, the record of a peer,
created empty on first contact. -/
def EnsurePeer (conf : accountConfig) (uid : String) : accountConfig × peerRecord :=
  match GetPeer conf uid with
  | some p => (conf, p)
  | none => (conf ++ [{ userID := uid, fingerprints := [] }], { userID := uid, fingerprints := [] })

/-- The fingerprint has been seen for the peer. -/
def hasFingerprint (p : peerRecord) (fingerprint : List Nat) : Bool :=
  p.fingerprints.any fun f => decide (f.fingerprint = fingerprint)

/-- Modelled from the spec: `p.EnsureHasFingerprint(fp)`, which inserts an
unseen fingerprint as untrusted and tells whether it was unseen. -/
def EnsureHasFingerprint (p : peerRecord) (fingerprint : List Nat) : peerRecord × Bool :=
  if hasFingerprint p fingerprint then (p, false)
  else ({ p with fingerprints := p.fingerprints ++ [{ fingerprint := fingerprint, trusted := false }] },
    true)

/-- Modelled from the spec: `p.HasTrustedFingerprint(fp)`, false when the
fingerprint is unknown or not trusted. -/
def HasTrustedFingerprint (p : peerRecord) (fingerprint : List Nat) : Bool :=
  p.fingerprints.any fun f => decide (f.fingerprint = fingerprint) && f.trusted

/-- The configuration after the record that `GetPeer` finds for `p.userID` was
changed to `p` through its pointer. -/
def putPeer : accountConfig → peerRecord → accountConfig
  | [], _ => []
  | q :: rest, p => if q.userID = p.userID then p :: rest else q :: putPeer rest p

/-- Source: `func (conv *conversationPane) isVerified(u *gtkUI) bool`, given
the fingerprint of the conversation (`none` when `getConversation` finds no
conversation) and the configuration; the result carries the configuration and
the pane after the call.  Saving the configuration is left to the caller's
collaborators. -/
def isVerified (conversation : Option (List Nat)) (conf : accountConfig)
    (conv : conversationPane) : Bool × accountConfig × conversationPane :=
  match conversation with
  | none => (false, conf, conv)
  | some fingerprint =>
    let (hasPeer, isNew, p, conf) :=
      match GetPeer conf conv.to_ with
      | some p =>
        let (p, isNew) := EnsureHasFingerprint p fingerprint
        (true, isNew, p, putPeer conf p)
      | none =>
        let (conf, p) := EnsurePeer conf conv.to_
        let (p, _) := EnsureHasFingerprint p fingerprint
        (false, false, p, putPeer conf p)
    let conv :=
      if !conv.hasSetNewFingerprint then
        { conv with isNewFingerprint := isNew, hasSetNewFingerprint := true }
      else conv
    (hasPeer && HasTrustedFingerprint p fingerprint, conf, conv)

/-- The two fields of the pane that record whether the key of the peer is new:
`(isNewFingerprint, hasSetNewFingerprint)`. -/
def fingerprintFlags (conv : conversationPane) : Bool × Bool :=
  (conv.isNewFingerprint, conv.hasSetNewFingerprint)

/-- Something that happens to the pane: one of its operations, or a call of
`isVerified` with the fingerprint the conversation shows at that moment and
the configuration as it is at that moment. -/
inductive paneEvent where
  | operation (op : paneOp)
  | isVerified (conversation : Option (List Nat)) (conf : accountConfig)

/-- The pane after an event. -/
def paneEvent.apply (env : Env) : paneEvent → conversationPane → conversationPane
  | .operation op, conv => op.apply env conv
  | .isVerified conversation conf, conv => (Coyim.isVerified conversation conf conv).2.2

/-- The pane after a sequence of events. -/
def applyEvents (env : Env) : List paneEvent → conversationPane → conversationPane
  | [], conv => conv
  | ev :: evs, conv => applyEvents env evs (ev.apply env conv)

/-- The event is a call of `isVerified` that finds the conversation and so
observes a fingerprint. -/
def paneEvent.observesFingerprint : paneEvent → Bool
  | .isVerified (some _) _ => true
  | _ => false

/-! ## Sample states -/

/-- A pane with the given marks and history text and nothing else. -/
def paneWith (ms : List timedMark) (h : List Char) : conversationPane :=
  { to_ := "peer@example.org"
    history := { text := h, marks := [] }
    pending := { text := [], marks := [] }
    scrollPendingVisible := false
    marks := ms
    hidden := false
    delayed := []
    pendingDelayed := []
    shownPrivate := false
    isNewFingerprint := false
    hasSetNewFingerprint := false
    clockReads := 0 }

/-- The marks of the compaction scenario: t = 0, 10, 20 minutes at offsets 0, 50, 120. -/
def scenarioMarks : List timedMark :=
  [⟨minutes 0, 0⟩, ⟨minutes 10, 50⟩, ⟨minutes 20, 120⟩]

/-- The compaction scenario on a history of 130 characters. -/
def scenarioPane : conversationPane :=
  paneWith scenarioMarks (List.replicate 130 'x')

/-- A sample environment: the clock advances one minute per reading from
12:00, every conversation is encrypted, and timestamps print as a fixed text. -/
def sampleEnv : Env :=
  { now := fun n => minutes (720 + n)
    IsEncrypted := fun _ _ => true
    Format := fun _ => "12:00:00"
    DisplayName := "me"
    currentResource := "laptop"
    StripSomeHTML := fun s => s }

/-- A delayed outgoing message with the given trace, as `sendMessage` builds it
and `appendSentMessage` stores it. -/
def sampleDelayed (trace : Int) (text : String) : sentMessage :=
  { message := text
    strippedMessage := text
    from_ := "me"
    to_ := "peer@example.org"
    resource := "laptop"
    timestamp := minutes 700
    queuedTimestamp := 0
    isEncrypted := false
    isDelayed := true
    isOutgoing := true
    isResent := false
    trace := trace
    coordinates := { start := none, end_ := none } }

/-- A pane with entries for traces 7 and 8 and the ready list 9, 8, 8, 7. -/
def mixedReadyPane : conversationPane :=
  { paneWith [] ['x'] with
    delayed := [(7, sampleDelayed 7 "seven"), (8, sampleDelayed 8 "eight")]
    pendingDelayed := [9, 8, 8, 7] }

/-- A pane with an entry for trace 7 whose ready list names only trace 9. -/
def absentReadyPane : conversationPane :=
  { paneWith [] ['x'] with
    delayed := [(7, sampleDelayed 7 "seven")]
    pendingDelayed := [9, 9]
    scrollPendingVisible := true }

/-- Trace 7 is marked sent twice while the private notification is not shown,
then the view replays, then trace 7 is marked sent once more and replayed again. -/
def twiceReadyCalls : List paneCall :=
  [.delayedMessageSent 7, .delayedMessageSent 7, .appendPendingDelayed,
   .delayedMessageSent 7, .appendPendingDelayed]

/-- An empty conversation that has shown the private-conversation notification. -/
def shownPrivatePane : conversationPane :=
  haveShownPrivateNotification (paneWith [] [])

/-- The state after a send that the transport accepted as delayed with trace 7,
on a conversation that has shown the private-conversation notification. -/
def delayedSendPane : conversationPane :=
  (sendMessage sampleEnv (7, true, none) "hi" shownPrivatePane).1

/-- The state after a send that the transport accepted as delayed with trace 7,
on a conversation that is shown on screen (`hidden = false`) and has not shown
the private-conversation notification. -/
def visibleNotPrivatePane : conversationPane :=
  (sendMessage sampleEnv (7, true, none) "hi" (onShow sampleEnv (paneWith [] []))).1

/-- The state of `delayedSendPane` after its window was hidden. -/
def hiddenPrivatePane : conversationPane :=
  onHide sampleEnv delayedSendPane

/-- The state after the delayed send of `delayedSendPane` was confirmed and
replayed: the mark taken for the pending message and the mark taken for its
replay both sit at offset 0 of the history. -/
def replayedPane : conversationPane :=
  delayedMessageSent sampleEnv 7 delayedSendPane

/-- A conversation with one line in its history and an entry for trace 7. -/
def offlineSendPane : conversationPane :=
  { paneWith [] "[12:00:00] me:  hi".data with
    delayed := [(7, sampleDelayed 7 "seven")] }

/-- The state after a message that was sent at once and two messages that the
transport accepted as delayed (traces 7 and 8): the marks of the two delayed
messages both sit at the end of the history. -/
def twoDelayedPane : conversationPane :=
  (sendMessage sampleEnv (8, true, none) "b"
    (sendMessage sampleEnv (7, true, none) "a"
      (sendMessage sampleEnv (1, false, none) "hi" (paneWith [] [])).1).1).1

/-- A run of the pane: a send, a delayed send, its confirmation, hiding the
window, a mark, a compaction and showing the window again. -/
def sampleOps : List paneOp :=
  [.sendMessage (1, false, none) "hi", .sendMessage (7, true, none) "a",
   .delayedMessageSent 7, .appendPendingDelayed, .onHide, .markNow,
   .reapOlderThan (minutes 722), .onShow]

/-- The verifier of a conversation whose start-verification notification is up. -/
def startedVerifier : verifier :=
  buildStartVerificationNotification (newVerifier "peer@example.org" "laptop")

/-- The verifier after the user pressed the verify button, was given the PIN
123456 and closed the PIN dialog: it waits for the peer. -/
def waitingVerifier : Option verifier :=
  (verifyButtonClicked (.ok 123456) startedVerifier).bind newPinDialogClosed

/-- The verifier after the peer asked for the secret. -/
def requestedVerifier : Option verifier :=
  handle .SecretNeeded startedVerifier

/-- A configuration that knows the sample peer with one trusted fingerprint. -/
def knownPeerConfig : accountConfig :=
  [{ userID := "peer@example.org", fingerprints := [{ fingerprint := [1, 2, 3], trusted := true }] }]

/-- The verifier after the peer asked for the secret and the user opened the
dialog for the PIN. -/
def pinEntryVerifier : verifier :=
  { newVerifier "peer@example.org" "laptop" with
    state := .peerRequestsSMP
    verificationWarning := some widget.hidden
    peerRequestsSMP := some widget.shown
    enterPinDialog := some widget.shown
    notified := ["StartVerificationNotification", "PeerRequestsSMP"] }

/-- Later events of a pane: `isVerified` sees a known and trusted fingerprint,
a message is sent, `isVerified` sees an unseen fingerprint with an empty
configuration, then finds no conversation, then sees an unseen fingerprint of
a known peer. -/
def laterEvents : List paneEvent :=
  [.isVerified (some [1, 2, 3]) knownPeerConfig,
   .operation (.sendMessage (1, false, none) "hi"),
   .isVerified (some [7]) [],
   .isVerified none knownPeerConfig,
   .isVerified (some [8]) knownPeerConfig]

/-- The verifier after a verification succeeded and the peer then asked for
the secret again: the start-verification notification is destroyed. -/
def requestedAfterSuccess : Option verifier :=
  (handle .Success startedVerifier).bind (handle .SecretNeeded)

/-- Earlier events of a pane, none of which observes a fingerprint:
`isVerified` finds no conversation, a message is sent, `isVerified` again
finds no conversation. -/
def earlierEvents : List paneEvent :=
  [.isVerified none knownPeerConfig,
   .operation (.sendMessage (1, false, none) "hi"),
   .isVerified none []]

/-! ## Compaction: theorems -/

theorem reapScan_eq (t : Time) (len : Int) (l : List timedMark) :
    ∀ (ix : Int) (nm : List timedMark) (lm : Option timedMark) (e : Bool),
      len = ix + l.length →
      reapScan t len ix l (nm, lm, e) =
        (if (l.dropWhile (notAfter t)).isEmpty then nm else l.dropWhile (notAfter t),
         if (l.takeWhile (notAfter t)).isEmpty then lm
           else (l.takeWhile (notAfter t)).getLast?,
         if (l.takeWhile (notAfter t)).isEmpty then e
           else (l.dropWhile (notAfter t)).isEmpty) := by
  induction l with
  | nil => intro ix nm lm e _; simp [reapScan]
  | cons m rest ih =>
    intro ix nm lm e hlen
    by_cases hm : t < m.at_
    · have hp : notAfter t m = false := by simp [notAfter, hm]
      simp [reapScan, hm, hp, List.takeWhile_cons, List.dropWhile_cons]
    · have hp : notAfter t m = true := by
        simp only [notAfter, decide_eq_true_eq]; exact not_lt.mp hm
      have hlen' : len = (ix + 1) + (rest.length : Int) := by
        simp only [List.length_cons] at hlen; push_cast at hlen; omega
      rw [reapScan]
      simp only [hm, if_false]
      rw [ih (ix + 1) nm (some m) _ hlen']
      simp only [List.takeWhile_cons, List.dropWhile_cons, hp, if_true]
      cases hpre : rest.takeWhile (notAfter t) with
      | nil =>
        have hdrop : rest.dropWhile (notAfter t) = rest := by
          have := List.takeWhile_append_dropWhile (notAfter t) rest
          rw [hpre] at this; simpa using this
        rw [hdrop]
        cases rest with
        | nil => simp at hlen' ⊢; omega
        | cons r rs =>
          simp only [List.length_cons] at hlen'; push_cast at hlen'
          simp; omega
      | cons p ps => simp [List.getLast?_cons_cons]

theorem reapOlderThan_eq (t : Time) (conv : conversationPane) :
    reapOlderThan t conv =
      match (conv.marks.takeWhile (notAfter t)).getLast? with
      | none => conv
      | some lm =>
        if (conv.marks.dropWhile (notAfter t)).isEmpty then
          { conv with
            history := conv.history.Delete 0 conv.history.GetEndIter
            marks := [] }
        else
          { conv with
            history := conv.history.Delete 0 (conv.history.GetIterAtOffset (lm.offset + 1))
            marks := (conv.marks.dropWhile (notAfter t)).map (rebase (lm.offset + 1)) } := by
  unfold reapOlderThan
  rw [reapScan_eq t conv.marks.length conv.marks 0 [] none false (by simp)]
  cases hpre : conv.marks.takeWhile (notAfter t) with
  | nil => simp
  | cons p ps =>
    cases hlast : (p :: ps).getLast? with
    | none => simp at hlast
    | some lm =>
      simp only [List.isEmpty_cons, Bool.false_eq_true, if_false, hlast]
      cases hpost : conv.marks.dropWhile (notAfter t) with
      | nil => simp [TextBuffer.GetStartIter]
      | cons q qs => simp [TextBuffer.GetStartIter]

theorem takeWhile_notAfter_le (t : Time) (l : List timedMark) :
    ∀ m ∈ l.takeWhile (notAfter t), m.at_ ≤ t := by
  intro m hm
  have := List.mem_takeWhile_imp hm
  simpa [notAfter] using this

theorem head_dropWhile_after (t : Time) (l : List timedMark) :
    ∀ m, (l.dropWhile (notAfter t)).head? = some m → t < m.at_ := by
  intro m hm
  have h := List.head?_dropWhile_not (notAfter t) l
  rw [hm] at h
  simp only [notAfter, decide_eq_false_iff_not, not_le] at h
  exact h

theorem reapOlderThan_noop (t : Time) (conv : conversationPane)
    (h : ∀ m, conv.marks.head? = some m → t < m.at_) : reapOlderThan t conv = conv := by
  rw [reapOlderThan_eq]
  have hpre : conv.marks.takeWhile (notAfter t) = [] := by
    cases hm : conv.marks with
    | nil => rfl
    | cons m rest =>
      have := h m (by simp [hm])
      simp [List.takeWhile_cons, notAfter, this]
  simp [hpre]

theorem delete_prefix_text (b : TextBuffer) (off : Int) (h : 0 ≤ off) :
    (b.Delete 0 (b.GetIterAtOffset off)).text = b.text.drop off.toNat := by
  unfold TextBuffer.Delete TextBuffer.GetIterAtOffset
  by_cases hle : off ≤ (b.text.length : Int)
  · have h1 : off.toNat ≤ b.text.length := by omega
    simp [h, hle, h1]
  · have h1 : b.text.length ≤ off.toNat := by omega
    simp [h, hle, List.drop_eq_nil_of_le h1]

theorem delete_all_text (b : TextBuffer) : (b.Delete 0 b.GetEndIter).text = [] := by
  simp [TextBuffer.Delete, TextBuffer.GetEndIter]

/-- C1 (as stated): on the scenario state the claim's outcome, one mark (t = 20 min)
at offset 70 with the history cut at offset 50, is not what `reapOlderThan` produces. -/
theorem C1_scenario_offset_70_refuted :
    ¬ ((reapOlderThan (minutes 15) scenarioPane).marks = [⟨minutes 20, 70⟩] ∧
       (reapOlderThan (minutes 15) scenarioPane).history.text =
         scenarioPane.history.text.drop 50) := by
  decide

/-- C1 (amended): with marks at t = 0, 10, 20 minutes and offsets 0, 50, 120,
`reapOlderThan` at t = 15 min deletes the first 51 characters of the history
(offsets 0 through 50) and leaves exactly one mark, at t = 20 min with offset 69. -/
theorem C1_scenario_deletes_51_rebases_to_69 (conv : conversationPane)
    (h : conv.marks = scenarioMarks) :
    (reapOlderThan (minutes 15) conv).marks = [⟨minutes 20, 69⟩] ∧
    (reapOlderThan (minutes 15) conv).history.text = conv.history.text.drop 51 := by
  rw [reapOlderThan_eq]
  have hpre : conv.marks.takeWhile (notAfter (minutes 15)) =
      [⟨minutes 0, 0⟩, ⟨minutes 10, 50⟩] := by rw [h]; decide
  have hpost : conv.marks.dropWhile (notAfter (minutes 15)) = [⟨minutes 20, 120⟩] := by
    rw [h]; decide
  rw [hpre, hpost]
  have hlast : ([⟨minutes 0, 0⟩, ⟨minutes 10, 50⟩] : List timedMark).getLast? =
      some ⟨minutes 10, 50⟩ := rfl
  rw [hlast]
  refine ⟨?_, ?_⟩
  · simp [rebase]
  · simpa using delete_prefix_text conv.history 51 (by decide)

theorem C1_scenario_deletes_51_rebases_to_69_witness :
    scenarioPane.marks = scenarioMarks ∧
    (reapOlderThan (minutes 15) scenarioPane).marks = [⟨minutes 20, 69⟩] ∧
    (reapOlderThan (minutes 15) scenarioPane).history.text =
      scenarioPane.history.text.drop 51 :=
  ⟨rfl, C1_scenario_deletes_51_rebases_to_69 scenarioPane rfl⟩

theorem rebase_at (off : Int) (m : timedMark) : (rebase off m).at_ = m.at_ := rfl

theorem map_rebase_at (off : Int) (l : List timedMark) :
    (l.map (rebase off)).map (fun m => m.at_) = l.map (fun m => m.at_) := by
  simp [List.map_map, Function.comp_def, rebase_at]

theorem map_rebase_zero (l : List timedMark) : l.map (rebase 0) = l := by
  induction l with
  | nil => rfl
  | cons m rest ih => simp [rebase, ih]

theorem dropWhile_after_of_sorted (t : Time) (l : List timedMark) (hs : sortedByTime l) :
    ∀ m ∈ l.dropWhile (notAfter t), t < m.at_ := by
  induction l with
  | nil => intro m hm; simp at hm
  | cons a rest ih =>
    have hs' : sortedByTime rest := (List.pairwise_cons.mp hs).2
    by_cases ha : notAfter t a = true
    · simpa [List.dropWhile_cons, ha] using ih hs'
    · intro m hm
      simp only [List.dropWhile_cons, ha] at hm
      have hta : t < a.at_ := by
        simp only [notAfter, decide_eq_true_eq, not_le] at ha; exact ha
      rcases List.mem_cons.mp hm with rfl | hmem
      · exact hta
      · exact lt_of_lt_of_le hta ((List.pairwise_cons.mp hs).1 m hmem)

/-- C2: when the mark list is empty or its first mark is strictly after the cutoff,
`reapOlderThan` changes nothing: marks (times and offsets), history and every
other field are as before.  Sortedness of the marks is not needed. -/
theorem C2_reap_noop_when_first_mark_after_cutoff (t : Time) (conv : conversationPane)
    (h : conv.marks = [] ∨ ∃ m rest, conv.marks = m :: rest ∧ t < m.at_) :
    reapOlderThan t conv = conv ∧
    (reapOlderThan t conv).marks = conv.marks ∧
    (reapOlderThan t conv).history = conv.history := by
  have hnoop : reapOlderThan t conv = conv := by
    apply reapOlderThan_noop
    intro m hm
    rcases h with h | ⟨m', rest, h, hlt⟩
    · simp [h] at hm
    · simp only [h, List.head?_cons, Option.some.injEq] at hm
      exact hm ▸ hlt
  rw [hnoop]
  exact ⟨rfl, rfl, rfl⟩

theorem C2_reap_noop_when_first_mark_after_cutoff_witness :
    reapOlderThan (minutes 15) (paneWith [⟨minutes 20, 120⟩, ⟨minutes 30, 200⟩] ['a', 'b']) =
      paneWith [⟨minutes 20, 120⟩, ⟨minutes 30, 200⟩] ['a', 'b'] ∧
    (reapOlderThan (minutes 15)
      (paneWith [⟨minutes 20, 120⟩, ⟨minutes 30, 200⟩] ['a', 'b'])).marks =
      [⟨minutes 20, 120⟩, ⟨minutes 30, 200⟩] ∧
    (reapOlderThan (minutes 15)
      (paneWith [⟨minutes 20, 120⟩, ⟨minutes 30, 200⟩] ['a', 'b'])).history =
      { text := ['a', 'b'], marks := [] } :=
  C2_reap_noop_when_first_mark_after_cutoff (minutes 15)
    (paneWith [⟨minutes 20, 120⟩, ⟨minutes 30, 200⟩] ['a', 'b'])
    (Or.inr ⟨⟨minutes 20, 120⟩, [⟨minutes 30, 200⟩], rfl, by decide⟩)

/-- C3: when the mark list is non-empty and every mark has time `≤ t`,
`reapOlderThan t` empties the history buffer (character count 0) and empties
the mark list. -/
theorem C3_reap_all_marks_old_clears_everything (t : Time) (conv : conversationPane)
    (hne : conv.marks ≠ []) (hall : ∀ m ∈ conv.marks, m.at_ ≤ t) :
    (reapOlderThan t conv).history.text = [] ∧
    (reapOlderThan t conv).history.GetCharCount = 0 ∧
    (reapOlderThan t conv).marks = [] := by
  have hpre : conv.marks.takeWhile (notAfter t) = conv.marks := by
    rw [List.takeWhile_eq_self_iff]
    intro m hm
    simpa [notAfter] using hall m hm
  have hpost : conv.marks.dropWhile (notAfter t) = [] := by
    rw [List.dropWhile_eq_nil_iff]
    intro m hm
    simpa [notAfter] using hall m hm
  rw [reapOlderThan_eq, hpre, hpost]
  cases hlast : conv.marks.getLast? with
  | none => exact absurd (List.getLast?_eq_none_iff.mp hlast) hne
  | some lm => simp [delete_all_text, TextBuffer.GetCharCount]

theorem C3_reap_all_marks_old_clears_everything_witness :
    (reapOlderThan (minutes 25) scenarioPane).history.text = [] ∧
    (reapOlderThan (minutes 25) scenarioPane).history.GetCharCount = 0 ∧
    (reapOlderThan (minutes 25) scenarioPane).marks = [] :=
  C3_reap_all_marks_old_clears_everything (minutes 25) scenarioPane (by decide) (by decide)

theorem reap_marks_eq_dropWhile (t : Time) (conv : conversationPane) :
    ∃ off, (reapOlderThan t conv).marks =
      (conv.marks.dropWhile (notAfter t)).map (rebase off) := by
  rw [reapOlderThan_eq]
  cases hpre : conv.marks.takeWhile (notAfter t) with
  | nil =>
    refine ⟨0, ?_⟩
    have hdrop : conv.marks.dropWhile (notAfter t) = conv.marks := by
      have := List.takeWhile_append_dropWhile (notAfter t) conv.marks
      rw [hpre] at this; simpa using this
    simp [hdrop, map_rebase_zero]
  | cons p ps =>
    cases hlast : (p :: ps).getLast? with
    | none => simp at hlast
    | some lm =>
      refine ⟨lm.offset + 1, ?_⟩
      cases hpost : conv.marks.dropWhile (notAfter t) with
      | nil => simp
      | cons q qs => simp

theorem filter_after_takeWhile (t : Time) (l : List timedMark) :
    (l.takeWhile (notAfter t)).filter (fun m => decide (t < m.at_)) = [] := by
  rw [List.filter_eq_nil_iff]
  intro m hm
  have := takeWhile_notAfter_le t l m hm
  simp only [decide_eq_true_eq, not_lt]
  exact this

theorem filter_after_rebase (t : Time) (off : Int) (l : List timedMark) :
    ((l.map (rebase off)).filter (fun m => decide (t < m.at_))).map (fun m => m.at_) =
      (l.filter (fun m => decide (t < m.at_))).map (fun m => m.at_) := by
  induction l with
  | nil => rfl
  | cons a rest ih =>
    by_cases h : t < a.at_
    · simp [List.filter_cons, rebase_at, h, ih]
    · simp [List.filter_cons, rebase_at, h, ih]

theorem drop_length_of_append {α : Type} {a b l : List α} (h : a ++ b = l) :
    l.drop a.length = b := by
  subst h; simp

theorem take_length_of_append {α : Type} {a b l : List α} (h : a ++ b = l) :
    l.take a.length = a := by
  subst h; simp

/-- C4: for every mark list and cutoff, the marks kept by `reapOlderThan t` are
the marks from some index `k` on, in their order and with their times (only
offsets are rebased), and all marks before `k` have time `≤ t`; so the times of
the kept marks are a suffix of the original times and every mark with time
`> t` is kept.  For a time-sorted list the kept marks are exactly the marks
with time `> t`. -/
theorem C4_reap_retains_marks_after_cutoff (t : Time) (conv : conversationPane) :
    (∃ k off, (reapOlderThan t conv).marks = (conv.marks.drop k).map (rebase off) ∧
      ∀ m ∈ conv.marks.take k, m.at_ ≤ t) ∧
    List.IsSuffix ((reapOlderThan t conv).marks.map fun m => m.at_)
      (conv.marks.map fun m => m.at_) ∧
    (((reapOlderThan t conv).marks.filter fun m => decide (t < m.at_)).map fun m => m.at_) =
      ((conv.marks.filter fun m => decide (t < m.at_)).map fun m => m.at_) ∧
    (sortedByTime conv.marks →
      ((reapOlderThan t conv).marks.map fun m => m.at_) =
        ((conv.marks.filter fun m => decide (t < m.at_)).map fun m => m.at_)) := by
  obtain ⟨off, hmarks⟩ := reap_marks_eq_dropWhile t conv
  have hsplit := List.takeWhile_append_dropWhile (notAfter t) conv.marks
  have hfilter : conv.marks.filter (fun m => decide (t < m.at_)) =
      (conv.marks.dropWhile (notAfter t)).filter (fun m => decide (t < m.at_)) := by
    conv_lhs => rw [← hsplit]
    rw [List.filter_append, filter_after_takeWhile, List.nil_append]
  refine ⟨⟨(conv.marks.takeWhile (notAfter t)).length, off, ?_, ?_⟩, ?_, ?_, ?_⟩
  · rw [hmarks]
    rw [drop_length_of_append hsplit]
  · intro m hm
    rw [take_length_of_append hsplit] at hm
    exact takeWhile_notAfter_le t conv.marks m hm
  · rw [hmarks, map_rebase_at]
    refine ⟨(conv.marks.takeWhile (notAfter t)).map fun m => m.at_, ?_⟩
    rw [← List.map_append, hsplit]
  · rw [hmarks, filter_after_rebase, hfilter]
  · intro hs
    rw [hmarks, map_rebase_at, hfilter]
    congr 1
    symm
    rw [List.filter_eq_self]
    intro m hm
    simpa using dropWhile_after_of_sorted t conv.marks hs m hm

theorem C4_reap_retains_marks_after_cutoff_witness :
    sortedByTime scenarioPane.marks ∧
    ((reapOlderThan (minutes 15) scenarioPane).marks.map fun m => m.at_) =
      ((scenarioPane.marks.filter fun m => decide (minutes 15 < m.at_)).map fun m => m.at_) :=
  ⟨by unfold sortedByTime; decide,
   (C4_reap_retains_marks_after_cutoff (minutes 15) scenarioPane).2.2.2
     (by unfold sortedByTime; decide)⟩

/-- C5 (failing input): after a delayed send and its replay the marks are sorted
by time and by offset and the first two share offset 0; with a cutoff between
these two, `reapOlderThan` deletes one character, the `[` that opens the
replayed message, although the first kept mark sits at offset 0, and rebases
that mark to offset -1. -/
theorem C5_reap_equal_offsets_deletes_past_kept_mark :
    replayedPane.marks = [⟨minutes 721, 0⟩, ⟨minutes 723, 0⟩, ⟨minutes 724, 29⟩] ∧
    sortedByTime replayedPane.marks ∧ sortedByOffset replayedPane.marks ∧
    replayedPane.history.text = "[12:00:00] [12:00:00] me:  hi".data ∧
    (reapOlderThan (minutes 722) replayedPane).marks =
      [⟨minutes 723, -1⟩, ⟨minutes 724, 28⟩] ∧
    (reapOlderThan (minutes 722) replayedPane).history.text =
      "12:00:00] [12:00:00] me:  hi".data := by
  refine ⟨by decide, ?_, ?_, by decide, by decide, by decide⟩
  · unfold sortedByTime; decide
  · unfold sortedByOffset; decide

/-- C6: for cutoffs `t2 ≤ t1` and every state, `reapOlderThan t2` after
`reapOlderThan t1` gives the state `reapOlderThan t1` alone gives; with
`t2 = t1` this is idempotence. -/
theorem C6_reap_with_earlier_cutoff_is_noop (t1 t2 : Time) (conv : conversationPane)
    (h : t2 ≤ t1) :
    reapOlderThan t2 (reapOlderThan t1 conv) = reapOlderThan t1 conv := by
  apply reapOlderThan_noop
  intro m hm
  obtain ⟨off, hmarks⟩ := reap_marks_eq_dropWhile t1 conv
  rw [hmarks] at hm
  cases hpost : conv.marks.dropWhile (notAfter t1) with
  | nil => simp [hpost] at hm
  | cons q qs =>
    have hq := head_dropWhile_after t1 conv.marks q (by simp [hpost])
    simp only [hpost, List.map_cons, List.head?_cons, Option.some.injEq] at hm
    rw [← hm, rebase_at]
    exact lt_of_le_of_lt h hq

theorem C6_reap_with_earlier_cutoff_is_noop_witness :
    reapOlderThan (minutes 12) (reapOlderThan (minutes 15) scenarioPane) =
      reapOlderThan (minutes 15) scenarioPane :=
  C6_reap_with_earlier_cutoff_is_noop (minutes 15) (minutes 12) scenarioPane (by decide)

/-! ## Delayed messages: theorems -/

theorem get_cons (k' k : Int) (v : sentMessage) (rest : delayedMap) :
    delayedMap.get ((k', v) :: rest) k = if k' = k then some v else delayedMap.get rest k :=
  rfl

theorem delete_cons (k' k : Int) (v : sentMessage) (rest : delayedMap) :
    delayedMap.delete ((k', v) :: rest) k =
      if k' = k then delayedMap.delete rest k else (k', v) :: delayedMap.delete rest k := by
  by_cases h : k' = k <;> simp [delayedMap.delete, List.filter_cons, h]

theorem get_delete_self (m : delayedMap) (k : Int) : (m.delete k).get k = none := by
  induction m with
  | nil => rfl
  | cons e rest ih =>
    obtain ⟨k', v⟩ := e
    rw [delete_cons]
    by_cases h : k' = k
    · rw [if_pos h]; exact ih
    · rw [if_neg h, get_cons, if_neg h]; exact ih

theorem get_delete_ne (m : delayedMap) (j k : Int) (hjk : j ≠ k) :
    (m.delete k).get j = m.get j := by
  induction m with
  | nil => rfl
  | cons e rest ih =>
    obtain ⟨k', v⟩ := e
    rw [delete_cons, get_cons]
    by_cases h : k' = k
    · have hj : ¬ k' = j := fun hj => hjk (hj ▸ h)
      rw [if_pos h, if_neg hj]; exact ih
    · rw [if_neg h, get_cons]
      by_cases hj : k' = j
      · rw [if_pos hj, if_pos hj]
      · rw [if_neg hj, if_neg hj]; exact ih

theorem get_set_self (m : delayedMap) (k : Int) (v : sentMessage) :
    (m.set k v).get k = some v := by
  simp [delayedMap.set, delayedMap.get]

theorem get_set_ne (m : delayedMap) (j k : Int) (v : sentMessage) (hjk : j ≠ k) :
    (m.set k v).get j = m.get j := by
  have hkj : ¬ k = j := fun h => hjk h.symm
  unfold delayedMap.set
  rw [get_cons, if_neg hkj]
  exact get_delete_ne m j k hjk

theorem replayTrace_none (env : Env) (ctrace : Int) (conv : conversationPane)
    (h : conv.delayed.get ctrace = none) : replayTrace env ctrace conv = (conv, none) := by
  simp [replayTrace, h]

theorem replayTrace_some (env : Env) (ctrace : Int) (conv : conversationPane)
    (dm : sentMessage) (h : conv.delayed.get ctrace = some dm) :
    (replayTrace env ctrace conv).2 =
      some (ctrace, restamp (env.IsEncrypted dm.to_ dm.resource) (env.now conv.clockReads) dm) ∧
    (replayTrace env ctrace conv).1.delayed = conv.delayed.delete ctrace ∧
    (replayTrace env ctrace conv).1.pendingDelayed = conv.pendingDelayed ∧
    (replayTrace env ctrace conv).1.shownPrivate = conv.shownPrivate ∧
    (replayTrace env ctrace conv).1.clockReads = conv.clockReads + 3 ∧
    (replayTrace env ctrace conv).1.history =
      writeEntries env (restamp (env.IsEncrypted dm.to_ dm.resource) (env.now conv.clockReads) dm)
        (messageEntries
          (restamp (env.IsEncrypted dm.to_ dm.resource) (env.now conv.clockReads) dm))
        conv.history := by
  simp only [replayTrace, h, timeNow, appendMessage, appendSentMessage, markNow, doInUIThread,
    restamp]
  split <;> simp

theorem replayedEntries_filter_absent (env : Env) (d : delayedMap) (k : Int)
    (h : d.get k = none) (l : List Int) :
    ∀ n, replayedEntries env d n (l.filter fun j => decide (j ≠ k)) =
      replayedEntries env d n l := by
  induction l with
  | nil => intro n; rfl
  | cons j rest ih =>
    intro n
    by_cases hj : j = k
    · subst hj
      simp only [List.filter_cons, ne_eq, not_true_eq_false, decide_False, Bool.false_eq_true,
        if_false, replayedEntries, h]
      exact ih n
    · simp only [List.filter_cons, ne_eq, hj, not_false_eq_true, decide_True, if_true,
        replayedEntries]
      cases d.get j with
      | none => exact ih n
      | some dm => simp only; rw [ih]

theorem replayedEntries_delete (env : Env) (d : delayedMap) (k : Int) (l : List Int) :
    ∀ n, replayedEntries env (d.delete k) n l =
      replayedEntries env d n (l.filter fun j => decide (j ≠ k)) := by
  induction l with
  | nil => intro n; rfl
  | cons j rest ih =>
    intro n
    by_cases hj : j = k
    · subst hj
      simp only [List.filter_cons, ne_eq, not_true_eq_false, decide_False, Bool.false_eq_true,
        if_false, replayedEntries, get_delete_self]
      exact ih n
    · simp only [List.filter_cons, ne_eq, hj, not_false_eq_true, decide_True, if_true,
        replayedEntries, get_delete_ne d j k hj]
      cases d.get j with
      | none => exact ih n
      | some dm => simp only; rw [ih]

theorem replayAll_calls (env : Env) (ks : List Int) :
    ∀ conv : conversationPane, (replayAll env ks conv).2 =
      replayedEntries env conv.delayed conv.clockReads (firstOccurrences ks) := by
  induction ks with
  | nil => intro conv; rfl
  | cons k rest ih =>
    intro conv
    simp only [replayAll, firstOccurrences, replayedEntries]
    cases h : conv.delayed.get k with
    | none =>
      rw [replayTrace_none env k conv h]
      simp only [Option.toList, List.nil_append]
      rw [ih, replayedEntries_filter_absent env conv.delayed k h]
    | some dm =>
      obtain ⟨hcall, hdel, _, _, hclock, _⟩ := replayTrace_some env k conv dm h
      rw [hcall, ih, hdel, hclock, replayedEntries_delete]
      rfl

theorem replayAll_history (env : Env) (ks : List Int) :
    ∀ conv : conversationPane, (replayAll env ks conv).1.history =
      writeAll env conv.history (replayAll env ks conv).2 := by
  induction ks with
  | nil => intro conv; rfl
  | cons k rest ih =>
    intro conv
    simp only [replayAll]
    rw [ih]
    cases h : conv.delayed.get k with
    | none =>
      rw [replayTrace_none env k conv h]
      rfl
    | some dm =>
      obtain ⟨hcall, _, _, _, _, hhist⟩ := replayTrace_some env k conv dm h
      rw [hcall, hhist]
      rfl

theorem replayAll_frame (env : Env) (ks : List Int) :
    ∀ conv : conversationPane,
      (replayAll env ks conv).1.pendingDelayed = conv.pendingDelayed ∧
      (replayAll env ks conv).1.shownPrivate = conv.shownPrivate := by
  induction ks with
  | nil => intro conv; exact ⟨rfl, rfl⟩
  | cons k rest ih =>
    intro conv
    simp only [replayAll]
    rw [(ih _).1, (ih _).2]
    cases h : conv.delayed.get k with
    | none => rw [replayTrace_none env k conv h]; exact ⟨rfl, rfl⟩
    | some dm =>
      obtain ⟨_, _, hp, hs, _, _⟩ := replayTrace_some env k conv dm h
      exact ⟨hp, hs⟩

theorem replayAll_delayed_get (env : Env) (ks : List Int) :
    ∀ (conv : conversationPane) (j : Int),
      (replayAll env ks conv).1.delayed.get j =
        if j ∈ ks then none else conv.delayed.get j := by
  induction ks with
  | nil => intro conv j; simp [replayAll]
  | cons k rest ih =>
    intro conv j
    simp only [replayAll]
    rw [ih]
    cases h : conv.delayed.get k with
    | none =>
      rw [replayTrace_none env k conv h]
      by_cases hj : j = k
      · subst hj; simp [h]
      · simp [hj]
    | some dm =>
      obtain ⟨_, hdel, _, _, _, _⟩ := replayTrace_some env k conv dm h
      rw [hdel]
      by_cases hj : j = k
      · subst hj; simp [get_delete_self]
      · simp [hj, get_delete_ne conv.delayed j k hj]

theorem replayAll_skip (env : Env) (ks : List Int) (conv : conversationPane)
    (h : ∀ k ∈ ks, conv.delayed.get k = none) : replayAll env ks conv = (conv, []) := by
  induction ks with
  | nil => rfl
  | cons k rest ih =>
    simp only [replayAll]
    rw [replayTrace_none env k conv (h k (List.mem_cons_self k rest)),
      ih (fun j hj => h j (List.mem_cons_of_mem k hj))]
    rfl

theorem replayTrace_keeps_absent (env : Env) (j k : Int) (conv : conversationPane)
    (h : conv.delayed.get k = none) : (replayTrace env j conv).1.delayed.get k = none := by
  cases hj : conv.delayed.get j with
  | none => rw [replayTrace_none env j conv hj]; exact h
  | some dm =>
    rw [(replayTrace_some env j conv dm hj).2.1]
    by_cases hkj : k = j
    · subst hkj; exact get_delete_self _ _
    · rw [get_delete_ne _ _ _ hkj]; exact h

theorem replayAll_filter_absent (env : Env) (k : Int) (l : List Int) :
    ∀ conv : conversationPane, conv.delayed.get k = none →
      replayAll env (l.filter fun j => decide (j ≠ k)) conv = replayAll env l conv := by
  induction l with
  | nil => intro conv _; rfl
  | cons j rest ih =>
    intro conv h
    by_cases hj : j = k
    · subst hj
      simp only [List.filter_cons, ne_eq, not_true_eq_false, decide_False, Bool.false_eq_true,
        if_false]
      rw [ih conv h]
      simp only [replayAll]
      rw [replayTrace_none env j conv h]
      rfl
    · simp only [List.filter_cons, ne_eq, hj, not_false_eq_true, decide_True, if_true,
        replayAll]
      rw [ih _ (replayTrace_keeps_absent env j k conv h)]

theorem replayAll_filter_present (env : Env) (l : List Int) :
    ∀ conv : conversationPane,
      replayAll env (l.filter fun j => (conv.delayed.get j).isSome) conv =
        replayAll env l conv := by
  induction l with
  | nil => intro conv; rfl
  | cons k rest ih =>
    intro conv
    cases h : conv.delayed.get k with
    | none =>
      simp only [List.filter_cons, h, Option.isSome_none, Bool.false_eq_true, if_false,
        replayAll]
      rw [ih conv, replayTrace_none env k conv h]
      rfl
    | some dm =>
      simp only [List.filter_cons, h, Option.isSome_some, if_true, replayAll]
      have hdel := (replayTrace_some env k conv dm h).2.1
      have habs : (replayTrace env k conv).1.delayed.get k = none := by
        rw [hdel]; exact get_delete_self _ _
      have hfilter : rest.filter (fun j => ((replayTrace env k conv).1.delayed.get j).isSome) =
          (rest.filter fun j => (conv.delayed.get j).isSome).filter
            fun j => decide (j ≠ k) := by
        rw [List.filter_filter]
        apply List.filter_congr
        intro j _
        rw [hdel]
        by_cases hj : j = k
        · subst hj; simp [get_delete_self]
        · simp [hj, get_delete_ne conv.delayed j k hj]
      have h1 := ih (replayTrace env k conv).1
      rw [hfilter, replayAll_filter_absent env k _ _ habs] at h1
      rw [h1]

theorem firstOccurrences_sublist (ks : List Int) : List.Sublist (firstOccurrences ks) ks := by
  induction ks with
  | nil => exact List.Sublist.slnil
  | cons k rest ih =>
    simp only [firstOccurrences]
    exact List.Sublist.cons₂ k ((List.filter_sublist _).trans ih)

theorem replayedEntries_keys (env : Env) (d : delayedMap) (l : List Int) :
    ∀ n, (replayedEntries env d n l).map Prod.fst = l.filter fun k => (d.get k).isSome := by
  induction l with
  | nil => intro n; rfl
  | cons k rest ih =>
    intro n
    simp only [replayedEntries, List.filter_cons]
    cases h : d.get k with
    | none => simpa using ih n
    | some dm => simpa using ih (n + 3)

theorem insertAtEnd_text (b : TextBuffer) (s : String) :
    (insertAtEnd b s).text = b.text ++ s.data := by
  simp [insertAtEnd, TextBuffer.Insert, TextBuffer.GetEndIter]

theorem foldl_insertEntry_text (es : List taggableText) :
    ∀ b : TextBuffer,
      (es.foldl insertEntry b).text = b.text ++ (es.map fun e => e.text.data).flatten := by
  induction es with
  | nil => intro b; simp
  | cons e rest ih =>
    intro b
    have he : (insertEntry b e).text = b.text ++ e.text.data := by
      unfold insertEntry insertWithTag
      split <;> exact insertAtEnd_text _ _
    rw [List.foldl_cons, ih, he]
    simp

theorem insertTimestamp_text (env : Env) (b : TextBuffer) (ts : Time) :
    (insertTimestamp env b ts).text = b.text ++ ('[' :: (env.Format ts).data ++ [']', ' ']) := by
  simp [insertTimestamp, insertWithTag, insertAtEnd_text]

theorem writeEntries_text (env : Env) (sent : sentMessage) (es : List taggableText)
    (b : TextBuffer) :
    (writeEntries env sent es b).text = b.text ++ entryText env sent es b.text.isEmpty := by
  unfold writeEntries entryText
  rw [foldl_insertEntry_text, insertTimestamp_text]
  have hcount : b.GetCharCount = 0 ↔ b.text = [] := by
    simp [TextBuffer.GetCharCount]
  have h0 : (if b.GetCharCount = 0 then b else insertAtEnd b "\n").text =
      b.text ++ (if b.text = [] then [] else ['\n']) := by
    by_cases hb : b.text = []
    · simp [hcount, hb]
    · simp [hcount, hb, insertAtEnd_text]
  cases hr : sent.isResent with
  | false => simp [h0]
  | true => simp [h0, insertTimestamp_text]

theorem writeEntries_extends (env : Env) (sent : sentMessage) (es : List taggableText)
    (b : TextBuffer) : List.IsPrefix b.text (writeEntries env sent es b).text := by
  rw [writeEntries_text]
  exact List.prefix_append _ _

theorem writeAll_cons (env : Env) (b : TextBuffer) (c : Int × sentMessage)
    (rest : List (Int × sentMessage)) :
    writeAll env b (c :: rest) =
      writeAll env (writeEntries env c.2 (messageEntries c.2) b) rest :=
  rfl

theorem writeAll_extends (env : Env) (calls : List (Int × sentMessage)) :
    ∀ b : TextBuffer, List.IsPrefix b.text (writeAll env b calls).text := by
  induction calls with
  | nil => intro b; exact List.prefix_refl _
  | cons c rest ih =>
    intro b
    rw [writeAll_cons]
    exact List.IsPrefix.trans (writeEntries_extends env _ _ b) (ih _)

theorem appendPendingDelayedCalls_eq (env : Env) (conv : conversationPane) :
    appendPendingDelayedCalls env conv =
      replayedEntries env conv.delayed conv.clockReads (firstOccurrences conv.pendingDelayed) := by
  unfold appendPendingDelayedCalls
  rw [replayAll_calls]

theorem appendPendingDelayed_get (env : Env) (conv : conversationPane) (k : Int) :
    (appendPendingDelayed env conv).delayed.get k =
      if k ∈ conv.pendingDelayed then none else conv.delayed.get k := by
  unfold appendPendingDelayed hideDelayedMessagesWindow
  simp only
  rw [replayAll_delayed_get]

theorem appendPendingDelayed_ready_empty (env : Env) (conv : conversationPane) :
    (appendPendingDelayed env conv).pendingDelayed = [] := by
  unfold appendPendingDelayed hideDelayedMessagesWindow
  simp only
  rw [(replayAll_frame env _ _).1]

/-- C7: `appendPendingDelayed` leaves the ready list empty; afterwards a trace of
the ready list has no entry in the delayed map and every other entry is as
before; the messages handed to `appendMessage` are the entries of the ready
traces at their first occurrence, in ready-list order and re-stamped, and the
history is the old history with exactly these messages written behind it;
ready traces without entry have no effect at all. -/
theorem C7_appendPendingDelayed_drains_ready_list_in_order (env : Env)
    (conv : conversationPane) :
    (appendPendingDelayed env conv).pendingDelayed = [] ∧
    (∀ k, (appendPendingDelayed env conv).delayed.get k =
      if k ∈ conv.pendingDelayed then none else conv.delayed.get k) ∧
    appendPendingDelayedCalls env conv =
      replayedEntries env conv.delayed conv.clockReads
        (firstOccurrences conv.pendingDelayed) ∧
    (appendPendingDelayedCalls env conv).map Prod.fst =
      (firstOccurrences conv.pendingDelayed).filter (fun k => (conv.delayed.get k).isSome) ∧
    List.Sublist ((appendPendingDelayedCalls env conv).map Prod.fst) conv.pendingDelayed ∧
    (appendPendingDelayed env conv).history =
      writeAll env conv.history (appendPendingDelayedCalls env conv) ∧
    List.IsPrefix conv.history.text (appendPendingDelayed env conv).history.text ∧
    appendPendingDelayed env conv =
      appendPendingDelayed env
        { conv with
          pendingDelayed := conv.pendingDelayed.filter fun k => (conv.delayed.get k).isSome } ∧
    ((∀ k ∈ conv.pendingDelayed, conv.delayed.get k = none) →
      appendPendingDelayed env conv =
        { conv with pendingDelayed := [], scrollPendingVisible := false }) := by
  have hkeys : (appendPendingDelayedCalls env conv).map Prod.fst =
      (firstOccurrences conv.pendingDelayed).filter (fun k => (conv.delayed.get k).isSome) := by
    rw [appendPendingDelayedCalls_eq, replayedEntries_keys]
  have hhist : (appendPendingDelayed env conv).history =
      writeAll env conv.history (appendPendingDelayedCalls env conv) := by
    unfold appendPendingDelayed appendPendingDelayedCalls hideDelayedMessagesWindow
    simp only
    rw [replayAll_history]
  refine ⟨?_, appendPendingDelayed_get env conv, appendPendingDelayedCalls_eq env conv, hkeys,
    ?_, hhist, ?_, ?_, ?_⟩
  · unfold appendPendingDelayed hideDelayedMessagesWindow
    simp only
    rw [(replayAll_frame env _ _).1]
  · rw [hkeys]
    exact (List.filter_sublist _).trans (firstOccurrences_sublist _)
  · rw [hhist]
    exact writeAll_extends env _ _
  · unfold appendPendingDelayed
    simp only
    rw [← replayAll_filter_present env conv.pendingDelayed { conv with pendingDelayed := [] }]
  · intro h
    unfold appendPendingDelayed hideDelayedMessagesWindow
    simp only
    rw [replayAll_skip env conv.pendingDelayed { conv with pendingDelayed := [] } h]

theorem C7_appendPendingDelayed_drains_ready_list_in_order_witness :
    (∀ k ∈ absentReadyPane.pendingDelayed, absentReadyPane.delayed.get k = none) ∧
    appendPendingDelayed sampleEnv absentReadyPane =
      { absentReadyPane with pendingDelayed := [], scrollPendingVisible := false } ∧
    (appendPendingDelayedCalls sampleEnv mixedReadyPane).map Prod.fst = [8, 7] ∧
    (appendPendingDelayed sampleEnv mixedReadyPane).delayed = [] :=
  ⟨by decide,
   (C7_appendPendingDelayed_drains_ready_list_in_order sampleEnv absentReadyPane).2.2.2.2.2.2.2.2
     (by decide),
   by rw [(C7_appendPendingDelayed_drains_ready_list_in_order sampleEnv
       mixedReadyPane).2.2.2.1]; decide,
   by decide⟩

theorem mem_firstOccurrences (ks : List Int) (k : Int) : k ∈ firstOccurrences ks ↔ k ∈ ks := by
  induction ks with
  | nil => simp [firstOccurrences]
  | cons j rest ih =>
    simp only [firstOccurrences, List.mem_cons, List.mem_filter, decide_eq_true_eq, ih]
    by_cases h : k = j
    · simp [h]
    · simp [h]

theorem firstOccurrences_nodup (ks : List Int) : (firstOccurrences ks).Nodup := by
  induction ks with
  | nil => exact List.nodup_nil
  | cons j rest ih =>
    simp only [firstOccurrences]
    refine List.nodup_cons.mpr ⟨?_, ih.filter _⟩
    simp [List.mem_filter]

theorem timesAppended_appendPendingDelayed (env : Env) (conv : conversationPane) (k : Int) :
    timesAppended k (appendPendingDelayedCalls env conv) =
      if k ∈ conv.pendingDelayed ∧ (conv.delayed.get k).isSome then 1 else 0 := by
  unfold timesAppended
  rw [appendPendingDelayedCalls_eq, replayedEntries_keys]
  have hnodup : ((firstOccurrences conv.pendingDelayed).filter
      fun k => (conv.delayed.get k).isSome).Nodup := (firstOccurrences_nodup _).filter _
  rw [List.count_eq_of_nodup hnodup]
  simp only [List.mem_filter, mem_firstOccurrences]

theorem timesAppended_append (k : Int) (a b : List (Int × sentMessage)) :
    timesAppended k (a ++ b) = timesAppended k a + timesAppended k b := by
  simp [timesAppended]

theorem delayedMessageSent_eq (env : Env) (trace : Int) (conv : conversationPane) :
    delayedMessageSent env trace conv =
      if conv.shownPrivate then
        appendPendingDelayed env { conv with pendingDelayed := conv.pendingDelayed ++ [trace] }
      else { conv with pendingDelayed := conv.pendingDelayed ++ [trace] } :=
  rfl

theorem call_step_present (env : Env) (c : paneCall) (conv : conversationPane) (k : Int)
    (m : sentMessage) (h : conv.delayed.get k = some m) :
    (timesAppended k (c.appended env conv) = 0 ∧ (c.run env conv).delayed.get k = some m) ∨
    (timesAppended k (c.appended env conv) = 1 ∧ (c.run env conv).delayed.get k = none) := by
  cases c with
  | appendPendingDelayed =>
    simp only [paneCall.appended, paneCall.run]
    rw [timesAppended_appendPendingDelayed, appendPendingDelayed_get]
    by_cases hk : k ∈ conv.pendingDelayed
    · right; simp [hk, h]
    · left; simp [hk, h]
  | delayedMessageSent trace =>
    simp only [paneCall.appended, paneCall.run, delayedMessageSentCalls, delayedMessageSent_eq]
    cases hs : conv.shownPrivate with
    | false => left; simp [timesAppended, h]
    | true =>
      simp only [if_true]
      rw [timesAppended_appendPendingDelayed, appendPendingDelayed_get]
      by_cases hk : k ∈ conv.pendingDelayed ++ [trace]
      · right; simp only [hk, h]; simp
      · left; simp only [hk, h]; simp

theorem call_step_absent (env : Env) (c : paneCall) (conv : conversationPane) (k : Int)
    (h : conv.delayed.get k = none) :
    timesAppended k (c.appended env conv) = 0 ∧ (c.run env conv).delayed.get k = none := by
  cases c with
  | appendPendingDelayed =>
    simp only [paneCall.appended, paneCall.run]
    rw [timesAppended_appendPendingDelayed, appendPendingDelayed_get]
    simp [h]
  | delayedMessageSent trace =>
    simp only [paneCall.appended, paneCall.run, delayedMessageSentCalls, delayedMessageSent_eq]
    cases hs : conv.shownPrivate with
    | false => simp [timesAppended, h]
    | true =>
      simp only [if_true]
      rw [timesAppended_appendPendingDelayed, appendPendingDelayed_get]
      simp [h]

theorem calls_absent (env : Env) (k : Int) (cs : List paneCall) :
    ∀ conv : conversationPane, conv.delayed.get k = none →
      timesAppended k (appendedDuring env cs conv) = 0 ∧
      (runCalls env cs conv).delayed.get k = none := by
  induction cs with
  | nil => intro conv h; exact ⟨rfl, h⟩
  | cons c rest ih =>
    intro conv h
    obtain ⟨h0, hget⟩ := call_step_absent env c conv k h
    obtain ⟨h1, hfin⟩ := ih _ hget
    simp only [appendedDuring, runCalls]
    rw [timesAppended_append, h0, h1]
    exact ⟨rfl, hfin⟩

theorem calls_present (env : Env) (k : Int) (m : sentMessage) (cs : List paneCall) :
    ∀ conv : conversationPane, conv.delayed.get k = some m →
      (timesAppended k (appendedDuring env cs conv) = 0 ∧
        (runCalls env cs conv).delayed.get k = some m) ∨
      (timesAppended k (appendedDuring env cs conv) = 1 ∧
        (runCalls env cs conv).delayed.get k = none) := by
  induction cs with
  | nil => intro conv h; exact Or.inl ⟨rfl, h⟩
  | cons c rest ih =>
    intro conv h
    simp only [appendedDuring, runCalls]
    rw [timesAppended_append]
    rcases call_step_present env c conv k m h with ⟨h0, hget⟩ | ⟨h1, hget⟩
    · rcases ih _ hget with ⟨h0', hfin⟩ | ⟨h1', hfin⟩
      · exact Or.inl ⟨by rw [h0, h0'], hfin⟩
      · exact Or.inr ⟨by rw [h0, h1'], hfin⟩
    · obtain ⟨h0', hfin⟩ := calls_absent env k rest _ hget
      exact Or.inr ⟨by rw [h1, h0'], hfin⟩

theorem replayedEntries_mem (env : Env) (d : delayedMap) (l : List Int) :
    ∀ (n : Nat) (c : Int × sentMessage), c ∈ replayedEntries env d n l →
      ∃ dm n', d.get c.1 = some dm ∧
        c.2 = restamp (env.IsEncrypted dm.to_ dm.resource) (env.now n') dm := by
  induction l with
  | nil => intro n c hc; simp [replayedEntries] at hc
  | cons j rest ih =>
    intro n c hc
    simp only [replayedEntries] at hc
    cases hj : d.get j with
    | none => rw [hj] at hc; exact ih n c hc
    | some dm =>
      rw [hj] at hc
      rcases List.mem_cons.mp hc with rfl | hmem
      · exact ⟨dm, n, hj, rfl⟩
      · exact ih (n + 3) c hmem

theorem appended_mem (env : Env) (c : paneCall) (conv : conversationPane)
    (e : Int × sentMessage) (he : e ∈ c.appended env conv) :
    ∃ dm n, conv.delayed.get e.1 = some dm ∧
      e.2 = restamp (env.IsEncrypted dm.to_ dm.resource) (env.now n) dm := by
  cases c with
  | appendPendingDelayed =>
    simp only [paneCall.appended] at he
    rw [appendPendingDelayedCalls_eq] at he
    exact replayedEntries_mem env _ _ _ e he
  | delayedMessageSent trace =>
    simp only [paneCall.appended, delayedMessageSentCalls] at he
    cases hs : conv.shownPrivate with
    | false => simp [hs] at he
    | true =>
      simp only [hs, if_true] at he
      rw [appendPendingDelayedCalls_eq] at he
      exact replayedEntries_mem env _ _ _ e he

theorem timesAppended_pos_of_mem (k : Int) (calls : List (Int × sentMessage))
    (e : Int × sentMessage) (he : e ∈ calls) (hk : e.1 = k) : 0 < timesAppended k calls := by
  unfold timesAppended
  rw [List.count_pos_iff]
  exact hk ▸ List.mem_map_of_mem Prod.fst he

theorem appendedDuring_mem (env : Env) (k : Int) (m : sentMessage) (cs : List paneCall) :
    ∀ conv : conversationPane, conv.delayed.get k = some m →
      ∀ e ∈ appendedDuring env cs conv, e.1 = k →
        ∃ n, e.2 = restamp (env.IsEncrypted m.to_ m.resource) (env.now n) m := by
  induction cs with
  | nil => intro conv _ e he; simp [appendedDuring] at he
  | cons c rest ih =>
    intro conv h e he hk
    simp only [appendedDuring, List.mem_append] at he
    rcases he with he | he
    · obtain ⟨dm, n, hget, hre⟩ := appended_mem env c conv e he
      rw [hk, h] at hget
      cases hget
      exact ⟨n, hre⟩
    · rcases call_step_present env c conv k m h with ⟨_, hget⟩ | ⟨_, hget⟩
      · exact ih _ hget e he hk
      · have h0 := (calls_absent env k rest _ hget).1
        have hpos := timesAppended_pos_of_mem k _ e he hk
        omega

theorem writeAll_append (env : Env) (b : TextBuffer) (xs ys : List (Int × sentMessage)) :
    writeAll env b (xs ++ ys) = writeAll env (writeAll env b xs) ys := by
  simp [writeAll, List.foldl_append]

theorem appendPendingDelayed_history (env : Env) (conv : conversationPane) :
    (appendPendingDelayed env conv).history =
      writeAll env conv.history (appendPendingDelayedCalls env conv) := by
  unfold appendPendingDelayed appendPendingDelayedCalls hideDelayedMessagesWindow
  simp only
  rw [replayAll_history]

theorem call_history (env : Env) (c : paneCall) (conv : conversationPane) :
    (c.run env conv).history = writeAll env conv.history (c.appended env conv) := by
  cases c with
  | appendPendingDelayed => exact appendPendingDelayed_history env conv
  | delayedMessageSent trace =>
    simp only [paneCall.appended, paneCall.run, delayedMessageSentCalls, delayedMessageSent_eq]
    cases hs : conv.shownPrivate with
    | false => simp [writeAll]
    | true =>
      simp only [if_true]
      rw [appendPendingDelayed_history]

theorem runCalls_history (env : Env) (cs : List paneCall) :
    ∀ conv : conversationPane,
      (runCalls env cs conv).history = writeAll env conv.history (appendedDuring env cs conv) := by
  induction cs with
  | nil => intro conv; rfl
  | cons c rest ih =>
    intro conv
    simp only [runCalls, appendedDuring]
    rw [ih, call_history, writeAll_append]

/-- C8: after `storeDelayedMessage k m`, along every sequence of
`delayedMessageSent` and `appendPendingDelayed` calls the history is the old
history with the appended messages written behind it, among which the entry of
trace `k` occurs at most once, and then as the re-stamped `m`; while it has not
occurred the delayed map still holds `m` under `k`, and once it has occurred
the map holds nothing under `k`. -/
theorem C8_entry_replayed_at_most_once (env : Env) (conv : conversationPane) (k : Int)
    (m : sentMessage) (cs : List paneCall) :
    (runCalls env cs (storeDelayedMessage k m conv)).history =
      writeAll env conv.history (appendedDuring env cs (storeDelayedMessage k m conv)) ∧
    timesAppended k (appendedDuring env cs (storeDelayedMessage k m conv)) ≤ 1 ∧
    ((timesAppended k (appendedDuring env cs (storeDelayedMessage k m conv)) = 0 ∧
        (runCalls env cs (storeDelayedMessage k m conv)).delayed.get k = some m) ∨
      (timesAppended k (appendedDuring env cs (storeDelayedMessage k m conv)) = 1 ∧
        (runCalls env cs (storeDelayedMessage k m conv)).delayed.get k = none)) ∧
    (∀ e ∈ appendedDuring env cs (storeDelayedMessage k m conv), e.1 = k →
      ∃ n, e.2 = restamp (env.IsEncrypted m.to_ m.resource) (env.now n) m) := by
  have hget : (storeDelayedMessage k m conv).delayed.get k = some m := get_set_self _ _ _
  have hcases := calls_present env k m cs _ hget
  refine ⟨runCalls_history env cs _, ?_, hcases, appendedDuring_mem env k m cs _ hget⟩
  rcases hcases with ⟨h, _⟩ | ⟨h, _⟩ <;> omega

/-- C8 on a sample: trace 7 is marked sent three times and replayed in two
rounds; its entry is appended once. -/
theorem C8_entry_replayed_at_most_once_witness :
    timesAppended 7 (appendedDuring sampleEnv twiceReadyCalls
      (storeDelayedMessage 7 (sampleDelayed 7 "seven") (paneWith [] []))) = 1 ∧
    (runCalls sampleEnv twiceReadyCalls
      (storeDelayedMessage 7 (sampleDelayed 7 "seven") (paneWith [] []))).delayed.get 7 = none := by
  rcases (C8_entry_replayed_at_most_once sampleEnv (paneWith [] []) 7 (sampleDelayed 7 "seven")
    twiceReadyCalls).2.2.1 with ⟨h0, _⟩ | h1
  · exact absurd h0 (by decide)
  · exact h1

/-- C9 (as stated): storing under a trace that already has an entry does not
leave that entry as it was; the map then holds the new message. -/
theorem C9_duplicate_trace_overwrites_entry :
    (storeDelayedMessage 7 (sampleDelayed 7 "first") (paneWith [] [])).delayed.get 7 =
      some (sampleDelayed 7 "first") ∧
    (storeDelayedMessage 7 (sampleDelayed 7 "second")
      (storeDelayedMessage 7 (sampleDelayed 7 "first") (paneWith [] []))).delayed.get 7 =
      some (sampleDelayed 7 "second") ∧
    (storeDelayedMessage 7 (sampleDelayed 7 "second")
      (storeDelayedMessage 7 (sampleDelayed 7 "first") (paneWith [] []))).delayed.get 7 ≠
      some (sampleDelayed 7 "first") := by
  refine ⟨by decide, by decide, by decide⟩

/-- C9 (amended): `storeDelayedMessage trace message` always succeeds; afterwards
the map holds `message` under `trace`, whether or not there was an entry before,
every other entry is as before, and no other field of the pane changes.  A
delayed message appended by `appendSentMessage` is stored this way under its
own trace. -/
theorem C9_storeDelayedMessage_sets_entry (env : Env) (trace : Int) (message : sentMessage)
    (conv : conversationPane) :
    (∀ j, (storeDelayedMessage trace message conv).delayed.get j =
      if j = trace then some message else conv.delayed.get j) ∧
    storeDelayedMessage trace message conv =
      { conv with delayed := (storeDelayedMessage trace message conv).delayed } ∧
    (∀ (attention : Bool) (entries : List taggableText), ∃ coordinates,
      (appendSentMessage env { message with isDelayed := true } attention entries
        conv).delayed.get message.trace =
        some { message with isDelayed := true, coordinates := coordinates }) := by
  refine ⟨?_, rfl, ?_⟩
  · intro j
    by_cases hj : j = trace
    · subst hj; simp [storeDelayedMessage, get_set_self]
    · simp [storeDelayedMessage, hj, get_set_ne _ _ _ _ hj]
  · intro attention entries
    simp only [appendSentMessage, doInUIThread, if_true, storeDelayedMessage]
    exact ⟨_, get_set_self _ _ _⟩

theorem replayTrace_hidden (env : Env) (k : Int) (conv : conversationPane) (h : Bool) :
    replayTrace env k (withHidden h conv) =
      (withHidden h (replayTrace env k conv).1, (replayTrace env k conv).2) := by
  unfold replayTrace withHidden
  cases hget : conv.delayed.get k with
  | none => simp [hget]
  | some dm =>
    simp only [hget, timeNow, appendMessage, appendSentMessage, markNow, doInUIThread, restamp]
    split <;> simp_all

theorem replayAll_hidden (env : Env) (ks : List Int) :
    ∀ (conv : conversationPane) (h : Bool),
      replayAll env ks (withHidden h conv) =
        (withHidden h (replayAll env ks conv).1, (replayAll env ks conv).2) := by
  induction ks with
  | nil => intro conv h; rfl
  | cons k rest ih =>
    intro conv h
    simp only [replayAll]
    rw [replayTrace_hidden]
    simp only
    rw [ih]

theorem appendPendingDelayed_hidden (env : Env) (conv : conversationPane) (h : Bool) :
    appendPendingDelayed env (withHidden h conv) =
      withHidden h (appendPendingDelayed env conv) := by
  have hrun := replayAll_hidden env conv.pendingDelayed { conv with pendingDelayed := [] } h
  show hideDelayedMessagesWindow
      (replayAll env conv.pendingDelayed
        (withHidden h { conv with pendingDelayed := [] })).1 = _
  rw [hrun]
  rfl

theorem delayedMessageSent_markSent (env : Env) (trace : Int) (conv : conversationPane) :
    delayedMessageSent env trace conv =
      if conv.shownPrivate then appendPendingDelayed env (markSent trace conv)
      else markSent trace conv :=
  rfl

theorem delayedMessageSent_hidden (env : Env) (trace : Int) (conv : conversationPane)
    (h : Bool) :
    delayedMessageSent env trace (withHidden h conv) =
      withHidden h (delayedMessageSent env trace conv) := by
  rw [delayedMessageSent_markSent, delayedMessageSent_markSent]
  have hs : (withHidden h conv).shownPrivate = conv.shownPrivate := rfl
  have hm : markSent trace (withHidden h conv) = withHidden h (markSent trace conv) := rfl
  rw [hs, hm]
  cases conv.shownPrivate with
  | false => rfl
  | true =>
    simp only [if_true]
    exact appendPendingDelayed_hidden env (markSent trace conv) h

/-- C10 (as stated): a conversation that is on screen (`hidden = false`) with a
delayed entry for trace 7 does not replay on `delayedMessageSent 7`, because the
private-conversation notification has not been shown: the trace stays in the
ready list and the entry stays in the delayed map; and a conversation that is
hidden but has shown that notification does replay. -/
theorem C10_visible_conversation_does_not_replay :
    visibleNotPrivatePane.hidden = false ∧
    (visibleNotPrivatePane.delayed.get 7).isSome = true ∧
    (delayedMessageSent sampleEnv 7 visibleNotPrivatePane).pendingDelayed = [7] ∧
    ((delayedMessageSent sampleEnv 7 visibleNotPrivatePane).delayed.get 7).isSome = true ∧
    (delayedMessageSent sampleEnv 7 visibleNotPrivatePane).history.text = [] ∧
    (appendPendingDelayed sampleEnv (markSent 7 visibleNotPrivatePane)).delayed.get 7 = none ∧
    delayedMessageSent sampleEnv 7 visibleNotPrivatePane ≠
      appendPendingDelayed sampleEnv (markSent 7 visibleNotPrivatePane) ∧
    hiddenPrivatePane.hidden = true ∧
    (delayedMessageSent sampleEnv 7 hiddenPrivatePane).pendingDelayed = [] ∧
    (delayedMessageSent sampleEnv 7 hiddenPrivatePane).delayed = [] := by
  refine ⟨by decide, by decide, by decide, by decide, by decide, by decide, ?_, by decide,
    by decide, by decide⟩
  intro h
  have h1 : ((delayedMessageSent sampleEnv 7 visibleNotPrivatePane).delayed.get 7).isSome =
      true := by decide
  rw [h] at h1
  revert h1
  decide

/-- C10 (amended): `delayedMessageSent trace` appends `trace` to the end of the
ready list and then replays exactly when the pane's `shownPrivate` flag is set,
whatever its `hidden` flag; without the flag nothing but the ready list changes
and no message is appended; with the flag the ready list is drained, no ready
trace keeps an entry and the history receives the replayed messages. -/
theorem C10_delayedMessageSent_replays_iff_shownPrivate (env : Env) (trace : Int)
    (conv : conversationPane) :
    (conv.shownPrivate = false →
      delayedMessageSent env trace conv =
        { conv with pendingDelayed := conv.pendingDelayed ++ [trace] } ∧
      delayedMessageSentCalls env trace conv = []) ∧
    (conv.shownPrivate = true →
      delayedMessageSent env trace conv = appendPendingDelayed env (markSent trace conv) ∧
      (delayedMessageSent env trace conv).pendingDelayed = [] ∧
      (∀ k, (delayedMessageSent env trace conv).delayed.get k =
        if k ∈ conv.pendingDelayed ++ [trace] then none else conv.delayed.get k) ∧
      (delayedMessageSent env trace conv).history =
        writeAll env conv.history (delayedMessageSentCalls env trace conv) ∧
      timesAppended trace (delayedMessageSentCalls env trace conv) =
        if (conv.delayed.get trace).isSome then 1 else 0) ∧
    (∀ h, delayedMessageSent env trace (withHidden h conv) =
      withHidden h (delayedMessageSent env trace conv)) := by
  refine ⟨?_, ?_, delayedMessageSent_hidden env trace conv⟩
  · intro hs
    rw [delayedMessageSent_eq]
    simp [hs, delayedMessageSentCalls]
  · intro hs
    have heq : delayedMessageSent env trace conv =
        appendPendingDelayed env (markSent trace conv) := by
      rw [delayedMessageSent_markSent, hs]; rfl
    have hcalls : delayedMessageSentCalls env trace conv =
        appendPendingDelayedCalls env (markSent trace conv) := by
      simp [delayedMessageSentCalls, hs, markSent]
    refine ⟨heq, ?_, ?_, ?_, ?_⟩
    · rw [heq]
      exact appendPendingDelayed_ready_empty env (markSent trace conv)
    · intro k
      rw [heq, appendPendingDelayed_get]
      rfl
    · rw [heq, hcalls, appendPendingDelayed_history]
      rfl
    · rw [hcalls, timesAppended_appendPendingDelayed]
      simp [markSent]

theorem C10_delayedMessageSent_replays_iff_shownPrivate_witness :
    (visibleNotPrivatePane.shownPrivate = false ∧
      delayedMessageSent sampleEnv 7 visibleNotPrivatePane =
        { visibleNotPrivatePane with
          pendingDelayed := visibleNotPrivatePane.pendingDelayed ++ [7] }) ∧
    (delayedSendPane.shownPrivate = true ∧
      delayedSendPane.delayed.map Prod.fst = [7] ∧
      delayedSendPane.pending.text = "[12:00:00] me:  hi".data ∧
      delayedMessageSent sampleEnv 7 delayedSendPane =
        appendPendingDelayed sampleEnv (markSent 7 delayedSendPane) ∧
      (delayedMessageSent sampleEnv 7 delayedSendPane).delayed = [] ∧
      (delayedMessageSent sampleEnv 7 delayedSendPane).history.text =
        "[12:00:00] [12:00:00] me:  hi".data ∧
      (delayedMessageSent sampleEnv 7 delayedSendPane).pending.text = []) :=
  ⟨⟨by decide,
    ((C10_delayedMessageSent_replays_iff_shownPrivate sampleEnv 7 visibleNotPrivatePane).1
      (by decide)).1⟩,
   ⟨by decide, by decide, by decide,
    ((C10_delayedMessageSent_replays_iff_shownPrivate sampleEnv 7 delayedSendPane).2.1
      (by decide)).1,
    by decide, by decide, by decide⟩⟩

/-! ## Sending: theorems -/

theorem displayNotification_eq (env : Env) (text : String) (conv : conversationPane) :
    displayNotification env text conv =
      { conv with
        clockReads := conv.clockReads + 2
        marks := conv.marks ++ [⟨env.now (conv.clockReads + 1), conv.history.GetCharCount⟩]
        history := writeEntries env { sentMessage.zero with timestamp := env.now conv.clockReads }
          [⟨"statusText", text⟩] conv.history } := by
  simp [displayNotification, timeNow, appendSentMessage, markNow, doInUIThread,
    sentMessage.zero]

theorem displayNotification_fields (env : Env) (text : String) (conv : conversationPane) :
    (displayNotification env text conv).delayed = conv.delayed ∧
    (displayNotification env text conv).pending = conv.pending ∧
    (displayNotification env text conv).pendingDelayed = conv.pendingDelayed ∧
    (displayNotification env text conv).history.text =
      conv.history.text ++ ((if conv.history.text.isEmpty then [] else ['\n']) ++
        ('[' :: (env.Format (env.now conv.clockReads)).data ++ [']', ' ']) ++ text.data) := by
  rw [displayNotification_eq]
  refine ⟨rfl, rfl, rfl, ?_⟩
  simp only [writeEntries_text]
  simp [entryText, sentMessage.zero]

/-- C11: `sendMessage` returns an error exactly when `EncryptAndSendTo` answers
with an error that is no `OfflineError`, and then it returns that error and
leaves the pane as it is; on an `OfflineError` it returns no error, the pane is
the one `displayNotification` of the error text gives: the delayed map and the
pending view are as before, the history receives a timestamp and the error
text, and nothing of the result depends on the message or the trace. -/
theorem C11_sendMessage_errors (env : Env) (trace : Int) (delayed : Bool)
    (err : Option sendError) (message : String) (conv : conversationPane) :
    ((sendMessage env (trace, delayed, err) message conv).2 ≠ none ↔
      ∃ text, err = some (.other text)) ∧
    (∀ text, err = some (.other text) →
      sendMessage env (trace, delayed, err) message conv = (conv, err)) ∧
    (∀ text, err = some (.offline text) →
      (sendMessage env (trace, delayed, err) message conv).2 = none ∧
      (sendMessage env (trace, delayed, err) message conv).1 =
        displayNotification env text conv ∧
      (sendMessage env (trace, delayed, err) message conv).1.delayed = conv.delayed ∧
      (sendMessage env (trace, delayed, err) message conv).1.pending = conv.pending ∧
      (sendMessage env (trace, delayed, err) message conv).1.history.text =
        conv.history.text ++ ((if conv.history.text.isEmpty then [] else ['\n']) ++
          ('[' :: (env.Format (env.now conv.clockReads)).data ++ [']', ' ']) ++ text.data) ∧
      ∀ (trace' : Int) (delayed' : Bool) (message' : String),
        sendMessage env (trace', delayed', err) message' conv =
          sendMessage env (trace, delayed, err) message conv) := by
  refine ⟨?_, ?_, ?_⟩
  · cases err with
    | none => simp [sendMessage]
    | some e => cases e <;> simp [sendMessage]
  · intro text h
    subst h
    rfl
  · intro text h
    subst h
    have hs : ∀ (tr : Int) (d : Bool) (msg : String),
        sendMessage env (tr, d, some (.offline text)) msg conv =
          (displayNotification env text conv, none) := fun _ _ _ => rfl
    obtain ⟨hd, hp, _, hh⟩ := displayNotification_fields env text conv
    rw [hs]
    exact ⟨rfl, rfl, hd, hp, hh, fun tr d msg => hs tr d msg⟩

theorem C11_sendMessage_errors_witness :
    (sendMessage sampleEnv (7, false, some (.other "no session")) "secret"
        offlineSendPane).2 = some (.other "no session") ∧
    (sendMessage sampleEnv (7, false, some (.offline "peer is offline")) "secret"
        offlineSendPane).2 = none ∧
    (sendMessage sampleEnv (7, false, some (.offline "peer is offline")) "secret"
        offlineSendPane).1.delayed = offlineSendPane.delayed ∧
    (sendMessage sampleEnv (7, false, some (.offline "peer is offline")) "secret"
        offlineSendPane).1.history.text =
      "[12:00:00] me:  hi\n[12:00:00] peer is offline".data :=
  ⟨congrArg Prod.snd
     ((C11_sendMessage_errors sampleEnv 7 false (some (.other "no session")) "secret"
       offlineSendPane).2.1 "no session" rfl),
   ((C11_sendMessage_errors sampleEnv 7 false (some (.offline "peer is offline")) "secret"
       offlineSendPane).2.2 "peer is offline" rfl).1,
   ((C11_sendMessage_errors sampleEnv 7 false (some (.offline "peer is offline")) "secret"
       offlineSendPane).2.2 "peer is offline" rfl).2.2.1,
   by decide⟩

/-! ## Compaction and marks, continued: theorems -/

/-- C18 (failing input): after one sent and two delayed messages the marks of
the delayed messages both sit at offset 18, the end of the history; with a
cutoff between them the found mark is not the last mark, `reapOlderThan`
deletes the 18 characters there are, and it subtracts 19 from the offset of the
remaining mark, which becomes -1. -/
theorem C18_reap_rebases_by_more_than_it_deletes :
    twoDelayedPane.marks = [⟨minutes 721, 0⟩, ⟨minutes 723, 18⟩, ⟨minutes 725, 18⟩] ∧
    twoDelayedPane.history.text = "[12:00:00] me:  hi".data ∧
    twoDelayedPane.history.text.length = 18 ∧
    (reapOlderThan (minutes 724) twoDelayedPane).history.text.length = 0 ∧
    (reapOlderThan (minutes 724) twoDelayedPane).marks = [⟨minutes 725, 18 - 19⟩] ∧
    (reapOlderThan (minutes 724) twoDelayedPane).marks = [⟨minutes 725, -1⟩] := by
  refine ⟨by decide, by decide, by decide, by decide, by decide, by decide⟩

theorem marksInOrder_congr (env : Env) (conv conv' : conversationPane)
    (hm : conv'.marks = conv.marks) (hc : conv'.clockReads = conv.clockReads)
    (h : marksInOrder env conv) : marksInOrder env conv' := by
  unfold marksInOrder at h ⊢
  rw [hm, hc]
  exact h

theorem marksInOrder_tick (env : Env) (hclock : clockMonotone env) (conv conv' : conversationPane)
    (hm : conv'.marks = conv.marks) (hc : conv'.clockReads = conv.clockReads + 1)
    (h : marksInOrder env conv) : marksInOrder env conv' := by
  unfold marksInOrder at h ⊢
  rw [hm, hc]
  exact ⟨h.1, fun m hmem => le_trans (h.2 m hmem) (hclock _ _ (Nat.le_succ _))⟩

theorem markNow_marks (env : Env) (conv : conversationPane) :
    (markNow env conv).marks =
      conv.marks ++ [⟨env.now conv.clockReads, conv.history.GetCharCount⟩] ∧
    (markNow env conv).clockReads = conv.clockReads + 1 :=
  ⟨rfl, rfl⟩

theorem marksInOrder_markNow (env : Env) (hclock : clockMonotone env) (conv : conversationPane)
    (h : marksInOrder env conv) : marksInOrder env (markNow env conv) := by
  unfold marksInOrder at h ⊢
  rw [(markNow_marks env conv).1, (markNow_marks env conv).2]
  constructor
  · unfold sortedByTime
    rw [List.pairwise_append]
    refine ⟨h.1, List.pairwise_singleton _ _, ?_⟩
    intro a ha b hb
    rw [List.mem_singleton] at hb
    subst hb
    exact h.2 a ha
  · intro m hm
    rcases List.mem_append.mp hm with hm | hm
    · exact le_trans (h.2 m hm) (hclock _ _ (Nat.le_succ _))
    · rw [List.mem_singleton] at hm
      subst hm
      exact hclock _ _ (Nat.le_succ _)

theorem sortedByTime_reap (t : Time) (conv : conversationPane) (h : sortedByTime conv.marks) :
    sortedByTime (reapOlderThan t conv).marks := by
  obtain ⟨off, hmarks⟩ := reap_marks_eq_dropWhile t conv
  rw [hmarks]
  unfold sortedByTime at h ⊢
  rw [List.pairwise_map]
  exact (h.sublist (List.dropWhile_sublist _)).imp (fun hab => hab)

theorem reapOlderThan_clockReads (t : Time) (conv : conversationPane) :
    (reapOlderThan t conv).clockReads = conv.clockReads := by
  rw [reapOlderThan_eq]
  cases (conv.marks.takeWhile (notAfter t)).getLast? with
  | none => rfl
  | some lm =>
    simp only
    split <;> rfl

theorem marksInOrder_reap (env : Env) (t : Time) (conv : conversationPane)
    (h : marksInOrder env conv) : marksInOrder env (reapOlderThan t conv) := by
  refine ⟨sortedByTime_reap t conv h.1, ?_⟩
  obtain ⟨off, hmarks⟩ := reap_marks_eq_dropWhile t conv
  rw [hmarks, reapOlderThan_clockReads]
  intro m hm
  obtain ⟨a, ha, rfl⟩ := List.mem_map.mp hm
  exact h.2 a ((List.dropWhile_sublist _).subset ha)

theorem marksInOrder_timeNow (env : Env) (hclock : clockMonotone env) (conv : conversationPane)
    (h : marksInOrder env conv) : marksInOrder env (timeNow env conv).2 :=
  marksInOrder_tick env hclock conv _ rfl rfl h

theorem appendSentMessage_marks (env : Env) (sent : sentMessage) (attention : Bool)
    (entries : List taggableText) (conv : conversationPane) :
    (appendSentMessage env sent attention entries conv).marks = (markNow env conv).marks ∧
    (appendSentMessage env sent attention entries conv).clockReads =
      (markNow env conv).clockReads := by
  unfold appendSentMessage doInUIThread
  cases sent.isDelayed <;> exact ⟨rfl, rfl⟩

theorem marksInOrder_appendSentMessage (env : Env) (hclock : clockMonotone env)
    (sent : sentMessage) (attention : Bool) (entries : List taggableText)
    (conv : conversationPane) (h : marksInOrder env conv) :
    marksInOrder env (appendSentMessage env sent attention entries conv) :=
  marksInOrder_congr env _ _ (appendSentMessage_marks env sent attention entries conv).1
    (appendSentMessage_marks env sent attention entries conv).2
    (marksInOrder_markNow env hclock conv h)

theorem marksInOrder_appendMessage (env : Env) (hclock : clockMonotone env)
    (sent : sentMessage) (conv : conversationPane) (h : marksInOrder env conv) :
    marksInOrder env (appendMessage env sent conv) := by
  unfold appendMessage
  exact marksInOrder_appendSentMessage env hclock sent _ _ conv h

theorem marksInOrder_displayNotification (env : Env) (hclock : clockMonotone env)
    (text : String) (conv : conversationPane) (h : marksInOrder env conv) :
    marksInOrder env (displayNotification env text conv) :=
  marksInOrder_appendSentMessage env hclock _ _ _ _ (marksInOrder_timeNow env hclock conv h)

theorem marksInOrder_sendMessage (env : Env) (hclock : clockMonotone env)
    (answer : Int × Bool × Option sendError) (message : String) (conv : conversationPane)
    (h : marksInOrder env conv) : marksInOrder env (sendMessage env answer message conv).1 := by
  obtain ⟨trace, delayed, err⟩ := answer
  cases err with
  | some e =>
    cases e with
    | other text => exact h
    | offline text => exact marksInOrder_displayNotification env hclock text conv h
  | none =>
    have ht := marksInOrder_timeNow env hclock conv h
    cases delayed with
    | false => exact marksInOrder_appendMessage env hclock _ _ ht
    | true =>
      exact marksInOrder_appendMessage env hclock _ _
        (marksInOrder_congr env _ (showDelayedMessagesWindow (timeNow env conv).2) rfl rfl ht)

theorem marksInOrder_replayTrace (env : Env) (hclock : clockMonotone env) (k : Int)
    (conv : conversationPane) (h : marksInOrder env conv) :
    marksInOrder env (replayTrace env k conv).1 := by
  cases hget : conv.delayed.get k with
  | none => rw [replayTrace_none env k conv hget]; exact h
  | some dm =>
    have h1 : marksInOrder env { conv with delayed := conv.delayed.delete k } :=
      marksInOrder_congr env conv _ rfl rfl h
    have h2 := marksInOrder_timeNow env hclock _ h1
    have h3 := marksInOrder_appendMessage env hclock
      (restamp (env.IsEncrypted dm.to_ dm.resource) (env.now conv.clockReads) dm) _ h2
    have h4 := marksInOrder_markNow env hclock _ h3
    refine marksInOrder_congr env _ _ ?_ ?_ h4
    · simp only [replayTrace, hget, doInUIThread]
      split <;> rfl
    · simp only [replayTrace, hget, doInUIThread]
      split <;> rfl

theorem marksInOrder_replayAll (env : Env) (hclock : clockMonotone env) (ks : List Int) :
    ∀ conv : conversationPane, marksInOrder env conv →
      marksInOrder env (replayAll env ks conv).1 := by
  induction ks with
  | nil => intro conv h; exact h
  | cons k rest ih =>
    intro conv h
    exact ih _ (marksInOrder_replayTrace env hclock k conv h)

theorem marksInOrder_appendPendingDelayed (env : Env) (hclock : clockMonotone env)
    (conv : conversationPane) (h : marksInOrder env conv) :
    marksInOrder env (appendPendingDelayed env conv) := by
  have h1 : marksInOrder env { conv with pendingDelayed := [] } :=
    marksInOrder_congr env conv _ rfl rfl h
  have h2 := marksInOrder_replayAll env hclock conv.pendingDelayed _ h1
  exact marksInOrder_congr env _ _ rfl rfl h2

theorem marksInOrder_delayedMessageSent (env : Env) (hclock : clockMonotone env) (trace : Int)
    (conv : conversationPane) (h : marksInOrder env conv) :
    marksInOrder env (delayedMessageSent env trace conv) := by
  rw [delayedMessageSent_markSent]
  have h1 : marksInOrder env (markSent trace conv) := marksInOrder_congr env conv _ rfl rfl h
  cases conv.shownPrivate with
  | false => exact h1
  | true => exact marksInOrder_appendPendingDelayed env hclock _ h1

theorem marksInOrder_onHide (env : Env) (hclock : clockMonotone env)
    (conv : conversationPane) (h : marksInOrder env conv) : marksInOrder env (onHide env conv) := by
  have h1 := marksInOrder_timeNow env hclock conv h
  have h2 := marksInOrder_reap env (env.now conv.clockReads - reapInterval) _ h1
  exact marksInOrder_congr env _ _ rfl rfl h2

theorem marksInOrder_onShow (env : Env) (hclock : clockMonotone env)
    (conv : conversationPane) (h : marksInOrder env conv) : marksInOrder env (onShow env conv) := by
  unfold onShow
  cases hh : conv.hidden with
  | false => simpa using h
  | true =>
    have h1 := marksInOrder_timeNow env hclock conv h
    have h2 := marksInOrder_reap env (env.now conv.clockReads - reapInterval) _ h1
    simpa using marksInOrder_congr env _
      { reapOlderThan (env.now conv.clockReads - reapInterval) (timeNow env conv).2 with
        hidden := false } rfl rfl h2

theorem marksInOrder_apply (env : Env) (hclock : clockMonotone env) (op : paneOp)
    (conv : conversationPane) (h : marksInOrder env conv) :
    marksInOrder env (op.apply env conv) := by
  cases op with
  | markNow => exact marksInOrder_markNow env hclock conv h
  | reapOlderThan t => exact marksInOrder_reap env t conv h
  | appendMessage sent => exact marksInOrder_appendMessage env hclock sent conv h
  | displayNotification text => exact marksInOrder_displayNotification env hclock text conv h
  | sendMessage answer message => exact marksInOrder_sendMessage env hclock answer message conv h
  | storeDelayedMessage trace message => exact marksInOrder_congr env conv _ rfl rfl h
  | delayedMessageSent trace => exact marksInOrder_delayedMessageSent env hclock trace conv h
  | appendPendingDelayed => exact marksInOrder_appendPendingDelayed env hclock conv h
  | onHide => exact marksInOrder_onHide env hclock conv h
  | onShow => exact marksInOrder_onShow env hclock conv h

theorem marksInOrder_applyOps (env : Env) (hclock : clockMonotone env) (ops : List paneOp) :
    ∀ conv : conversationPane, marksInOrder env conv →
      marksInOrder env (applyOps env ops conv) := by
  induction ops with
  | nil => intro conv h; exact h
  | cons op rest ih =>
    intro conv h
    exact ih _ (marksInOrder_apply env hclock op conv h)

theorem sampleEnv_clockMonotone : clockMonotone sampleEnv := by
  intro i j h
  show ((720 + (i : Int)) * 60 * 1000000000 : Int) ≤ (720 + (j : Int)) * 60 * 1000000000
  omega

/-- C20: under a clock that never goes back, `markNow` appends one mark, at the
history's character count and the time read, and leaves the marks before it as
they are; `markNow` keeps the marks sorted by time when none of them is later
than the clock, and `reapOlderThan` keeps them sorted for every cutoff; so
after every sequence of operations of the pane that starts with no mark, the
marks are sorted by non-decreasing time. -/
theorem C20_marks_stay_sorted_by_time (env : Env) (hclock : clockMonotone env) :
    (∀ conv : conversationPane, (markNow env conv).marks =
      conv.marks ++ [⟨env.now conv.clockReads, conv.history.GetCharCount⟩]) ∧
    (∀ conv : conversationPane, marksInOrder env conv → marksInOrder env (markNow env conv)) ∧
    (∀ (conv : conversationPane) (t : Time), sortedByTime conv.marks →
      sortedByTime (reapOlderThan t conv).marks) ∧
    (∀ (conv : conversationPane) (t : Time), marksInOrder env conv →
      marksInOrder env (reapOlderThan t conv)) ∧
    (∀ (conv : conversationPane) (ops : List paneOp), conv.marks = [] →
      sortedByTime (applyOps env ops conv).marks) := by
  refine ⟨fun conv => rfl, fun conv h => marksInOrder_markNow env hclock conv h,
    fun conv t h => sortedByTime_reap t conv h, fun conv t h => marksInOrder_reap env t conv h, ?_⟩
  intro conv ops hempty
  have h0 : marksInOrder env conv := by
    unfold marksInOrder sortedByTime
    rw [hempty]
    exact ⟨List.Pairwise.nil, fun m hm => absurd hm (List.not_mem_nil m)⟩
  exact (marksInOrder_applyOps env hclock ops conv h0).1

theorem C20_marks_stay_sorted_by_time_witness :
    (paneWith [] []).marks = [] ∧
    (applyOps sampleEnv sampleOps (paneWith [] [])).marks =
      [⟨minutes 723, 17⟩, ⟨minutes 725, 17⟩, ⟨minutes 726, 46⟩, ⟨minutes 728, 46⟩] ∧
    sortedByTime (applyOps sampleEnv sampleOps (paneWith [] [])).marks :=
  ⟨rfl, by decide,
   (C20_marks_stay_sorted_by_time sampleEnv sampleEnv_clockMonotone).2.2.2.2
     (paneWith [] []) sampleOps rfl⟩

/-! ## Re-stamping of replayed messages: theorems -/

theorem replayedEntries_mem_reading (env : Env) (d : delayedMap) (l : List Int) :
    ∀ (n : Nat) (c : Int × sentMessage), c ∈ replayedEntries env d n l →
      ∃ dm n', d.get c.1 = some dm ∧
        c.2 = restamp (env.IsEncrypted dm.to_ dm.resource) (env.now n') dm ∧
        n ≤ n' ∧ n' < n + 3 * (replayedEntries env d n l).length := by
  induction l with
  | nil => intro n c hc; simp [replayedEntries] at hc
  | cons j rest ih =>
    intro n c hc
    simp only [replayedEntries] at hc ⊢
    cases hj : d.get j with
    | none =>
      rw [hj] at hc
      simp only
      exact ih n c hc
    | some dm =>
      rw [hj] at hc
      simp only [List.length_cons]
      rcases List.mem_cons.mp hc with rfl | hmem
      · exact ⟨dm, n, hj, rfl, le_refl n, by omega⟩
      · obtain ⟨dm', n', hget, hre, hle, hlt⟩ := ih (n + 3) c hmem
        exact ⟨dm', n', hget, hre, by omega, by omega⟩

theorem replayAll_clockReads (env : Env) (ks : List Int) :
    ∀ conv : conversationPane,
      (replayAll env ks conv).1.clockReads =
        conv.clockReads + 3 * (replayAll env ks conv).2.length := by
  induction ks with
  | nil => intro conv; rfl
  | cons k rest ih =>
    intro conv
    simp only [replayAll]
    rw [ih]
    cases h : conv.delayed.get k with
    | none =>
      rw [replayTrace_none env k conv h]
      simp
    | some dm =>
      obtain ⟨hcall, _, _, _, hclock, _⟩ := replayTrace_some env k conv dm h
      rw [hcall, hclock]
      simp only [Option.toList, List.length_append, List.length_cons, List.length_nil]
      omega

theorem appendMessage_not_delayed (env : Env) (sent : sentMessage) (conv : conversationPane)
    (h : sent.isDelayed = false) :
    (appendMessage env sent conv).pending = conv.pending ∧
    (appendMessage env sent conv).delayed = conv.delayed ∧
    (appendMessage env sent conv).history.text =
      conv.history.text ++ entryText env sent (messageEntries sent) conv.history.text.isEmpty := by
  have heq : appendMessage env sent conv =
      { markNow env conv with
        history := writeEntries env sent (messageEntries sent) conv.history } := by
    simp [appendMessage, appendSentMessage, doInUIThread, h, markNow, timeNow]
  rw [heq]
  exact ⟨rfl, rfl, writeEntries_text env sent (messageEntries sent) conv.history⟩

/-- C19: every message that `appendPendingDelayed` hands to `appendMessage` is
the entry the delayed map held under its trace, re-stamped: `queuedTimestamp`
is the entry's `timestamp`, `timestamp` is a reading of the clock taken during
the call, `isDelayed` is false and `isResent` is true, while `message`,
`strippedMessage`, `from`, `to`, `resource`, `isOutgoing`, `trace` (and the
coordinates) are the entry's; appending it writes to the history and leaves the
pending view and the delayed map alone. -/
theorem C19_replayed_entries_are_restamped (env : Env) (conv : conversationPane)
    (c : Int × sentMessage) (hc : c ∈ appendPendingDelayedCalls env conv) :
    ∃ dm n, conv.delayed.get c.1 = some dm ∧
      conv.clockReads ≤ n ∧ n < (appendPendingDelayed env conv).clockReads ∧
      c.2.queuedTimestamp = dm.timestamp ∧
      c.2.timestamp = env.now n ∧
      c.2.isDelayed = false ∧
      c.2.isResent = true ∧
      c.2.message = dm.message ∧
      c.2.strippedMessage = dm.strippedMessage ∧
      c.2.from_ = dm.from_ ∧
      c.2.to_ = dm.to_ ∧
      c.2.resource = dm.resource ∧
      c.2.isOutgoing = dm.isOutgoing ∧
      c.2.trace = dm.trace ∧
      c.2.coordinates = dm.coordinates ∧
      c.2.isEncrypted = env.IsEncrypted dm.to_ dm.resource ∧
      ∀ s : conversationPane,
        (appendMessage env c.2 s).pending = s.pending ∧
        (appendMessage env c.2 s).delayed = s.delayed ∧
        (appendMessage env c.2 s).history.text =
          s.history.text ++ entryText env c.2 (messageEntries c.2) s.history.text.isEmpty := by
  have hclock : (appendPendingDelayed env conv).clockReads =
      conv.clockReads + 3 * (appendPendingDelayedCalls env conv).length := by
    unfold appendPendingDelayed appendPendingDelayedCalls hideDelayedMessagesWindow
    simp only
    rw [replayAll_clockReads]
  rw [appendPendingDelayedCalls_eq] at hc hclock
  obtain ⟨dm, n, hget, hre, hle, hlt⟩ := replayedEntries_mem_reading env _ _ _ c hc
  refine ⟨dm, n, hget, hle, by rw [hclock]; exact hlt, ?_⟩
  rw [hre]
  refine ⟨rfl, rfl, rfl, rfl, rfl, rfl, rfl, rfl, rfl, rfl, rfl, rfl, rfl, ?_⟩
  intro s
  exact appendMessage_not_delayed env _ s rfl

theorem C19_replayed_entries_are_restamped_witness :
    (7, restamp true (minutes 723) (sampleDelayed 7 "seven")) ∈
      appendPendingDelayedCalls sampleEnv mixedReadyPane ∧
    ∃ dm n, mixedReadyPane.delayed.get 7 = some dm ∧ n < 6 ∧
      (restamp true (minutes 723) (sampleDelayed 7 "seven")).queuedTimestamp = dm.timestamp ∧
      (restamp true (minutes 723) (sampleDelayed 7 "seven")).timestamp = sampleEnv.now n := by
  have hmem : (7, restamp true (minutes 723) (sampleDelayed 7 "seven")) ∈
      appendPendingDelayedCalls sampleEnv mixedReadyPane := by
    decide
  obtain ⟨dm, n, hget, _, hlt, hq, ht, _⟩ :=
    C19_replayed_entries_are_restamped sampleEnv mixedReadyPane _ hmem
  exact ⟨hmem, dm, n, hget, hlt, hq, ht⟩

/-! ## The PIN: theorems -/

theorem digitChar_digit (n : Nat) (h : n < 10) :
    (Nat.digitChar n).isDigit = true ∧ (Nat.digitChar n).toNat - 48 = n := by
  interval_cases n <;> exact ⟨by decide, by decide⟩

theorem numericValue_append_one (xs : List Char) (c : Char) :
    numericValue (xs ++ [c]) = 10 * numericValue xs + (c.toNat - 48) := by
  simp [numericValue, List.foldl_append]

theorem decimalCore_value (fuel : Nat) :
    ∀ n, n < fuel → numericValue (decimalCore fuel n) = n := by
  induction fuel with
  | zero => intro n h; omega
  | succ fuel ih =>
    intro n h
    unfold decimalCore
    by_cases hn : n < 10
    · rw [if_pos hn]
      have := (digitChar_digit n hn).2
      simp [numericValue, this]
    · rw [if_neg hn, numericValue_append_one, ih (n / 10) (by omega),
        (digitChar_digit (n % 10) (Nat.mod_lt n (by decide))).2]
      omega

theorem decimalCore_digits (fuel : Nat) :
    ∀ n, ∀ c ∈ decimalCore fuel n, c.isDigit = true := by
  induction fuel with
  | zero => intro n c hc; simp [decimalCore] at hc
  | succ fuel ih =>
    intro n c hc
    unfold decimalCore at hc
    by_cases hn : n < 10
    · rw [if_pos hn, List.mem_singleton] at hc
      rw [hc]; exact (digitChar_digit n hn).1
    · rw [if_neg hn, List.mem_append, List.mem_singleton] at hc
      rcases hc with hc | hc
      · exact ih _ c hc
      · rw [hc]; exact (digitChar_digit (n % 10) (Nat.mod_lt n (by decide))).1

theorem decimalCore_length (fuel : Nat) :
    ∀ n k, n < fuel → n < 10 ^ (k + 1) →
      1 ≤ (decimalCore fuel n).length ∧ (decimalCore fuel n).length ≤ k + 1 := by
  induction fuel with
  | zero => intro n k h; omega
  | succ fuel ih =>
    intro n k h hk
    unfold decimalCore
    by_cases hn : n < 10
    · rw [if_pos hn]; simp
    · rw [if_neg hn, List.length_append, List.length_singleton]
      cases k with
      | zero => simp at hk; omega
      | succ k =>
        have hdiv : n / 10 < 10 ^ (k + 1) := by
          rw [Nat.div_lt_iff_lt_mul (by decide)]
          rw [pow_succ] at hk
          exact hk
        have := ih (n / 10) k (by omega) hdiv
        omega

theorem numericValue_zeros (k : Nat) (xs : List Char) :
    numericValue (List.replicate k '0' ++ xs) = numericValue xs := by
  have h : ∀ k, List.foldl (fun acc c => 10 * acc + (c.toNat - 48)) 0 (List.replicate k '0') = 0 := by
    intro k
    induction k with
    | zero => rfl
    | succ k ih => rw [List.replicate_succ, List.foldl_cons]; exact ih
  unfold numericValue
  rw [List.foldl_append, h]

theorem digit_bounds (c : Char) (h : c.isDigit = true) : ¬ c < '0' ∧ ¬ '9' < c := by
  simp only [Char.isDigit, Bool.and_eq_true, decide_eq_true_eq] at h
  obtain ⟨h1, h2⟩ := h
  constructor
  · rw [Char.lt_def, UInt32.not_lt]; exact h1
  · rw [Char.lt_def, UInt32.not_lt]; exact h2

theorem not_lt_zeros (xs : List Char) :
    ∀ n, xs.length = n → (∀ c ∈ xs, ¬ c < '0') → ¬ xs < List.replicate n '0' := by
  induction xs with
  | nil =>
    intro n hn _ h
    simp only [List.length_nil] at hn
    subst hn
    cases h
  | cons x rest ih =>
    intro n hn hall h
    cases n with
    | zero => simp at hn
    | succ n =>
      rw [List.replicate_succ] at h
      cases h with
      | rel hlt => exact hall _ (List.mem_cons_self _ rest) hlt
      | cons hrest =>
        exact ih n (by simpa using hn) (fun c hc => hall c (List.mem_cons_of_mem _ hc)) hrest

theorem nines_not_lt (xs : List Char) :
    ∀ n, xs.length = n → (∀ c ∈ xs, ¬ '9' < c) → ¬ List.replicate n '9' < xs := by
  induction xs with
  | nil =>
    intro n hn _ h
    simp only [List.length_nil] at hn
    subst hn
    cases h
  | cons x rest ih =>
    intro n hn hall h
    cases n with
    | zero => simp at hn
    | succ n =>
      rw [List.replicate_succ] at h
      cases h with
      | rel hlt => exact hall _ (List.mem_cons_self _ rest) hlt
      | cons hrest =>
        exact ih n (by simpa using hn) (fun c hc => hall c (List.mem_cons_of_mem _ hc)) hrest

theorem six_digits_in_range (s : String) (hlen : s.length = 6)
    (hdig : ∀ c ∈ s.data, c.isDigit = true) : "000000" ≤ s ∧ s ≤ "999999" := by
  constructor
  · rw [String.le_iff_toList_le, ← not_lt]
    exact not_lt_zeros s.data 6 hlen (fun c hc => (digit_bounds c (hdig c hc)).1)
  · rw [String.le_iff_toList_le, ← not_lt]
    exact nines_not_lt s.data 6 hlen (fun c hc => (digit_bounds c (hdig c hc)).2)

/-- C12: for every value `v` in `[0, 10^6)` that the random source returns,
`createPIN` returns no error and a PIN of exactly six characters, all decimal
digits: the decimal digits of `v` behind as many zeros as it takes, whose
numeric value is `v`; so the PIN lies between "000000" and "999999" and two
values with the same PIN are equal. -/
theorem C12_createPIN_six_digits (v : Nat) (hv : v < 1000000) :
    (createPIN (.ok v)).2 = none ∧
    (createPIN (.ok v)).1.length = 6 ∧
    (∀ c ∈ (createPIN (.ok v)).1.data, c.isDigit = true) ∧
    (createPIN (.ok v)).1.data =
      List.replicate (6 - (decimal v).length) '0' ++ decimal v ∧
    numericValue (createPIN (.ok v)).1.data = v ∧
    ("000000" ≤ (createPIN (.ok v)).1 ∧ (createPIN (.ok v)).1 ≤ "999999") ∧
    (∀ w, w < 1000000 → (createPIN (.ok w)).1 = (createPIN (.ok v)).1 → w = v) := by
  have hlen := decimalCore_length (v + 1) v 5 (Nat.lt_succ_self v) (by norm_num; exact hv)
  have hval : ∀ w, numericValue (createPIN (.ok w)).1.data = w := by
    intro w
    show numericValue (List.replicate _ '0' ++ decimal w) = w
    rw [numericValue_zeros]
    exact decimalCore_value (w + 1) w (Nat.lt_succ_self w)
  have hsix : (createPIN (.ok v)).1.length = 6 := by
    show (List.replicate _ '0' ++ decimal v).length = 6
    rw [List.length_append, List.length_replicate]
    unfold decimal
    omega
  have hdig : ∀ c ∈ (createPIN (.ok v)).1.data, c.isDigit = true := by
    intro c hc
    have hc' : c ∈ List.replicate (6 - (decimal v).length) '0' ++ decimal v := hc
    rcases List.mem_append.mp hc' with h | h
    · rw [(List.mem_replicate.mp h).2]; decide
    · exact decimalCore_digits _ _ c h
  refine ⟨rfl, hsix, hdig, rfl, hval v, six_digits_in_range _ hsix hdig, ?_⟩
  · intro w _ heq
    have := hval w
    rw [heq, hval v] at this
    exact this.symm

theorem C12_createPIN_six_digits_witness :
    (42 : Nat) < 1000000 ∧ createPIN (.ok 42) = ("000042", none) ∧
    (createPIN (.ok 42)).1.length = 6 ∧
    numericValue (createPIN (.ok 42)).1.data = 42 :=
  ⟨by decide, by decide, (C12_createPIN_six_digits 42 (by decide)).2.1,
   (C12_createPIN_six_digits 42 (by decide)).2.2.2.2.1⟩

/-! ## The verifier: theorems -/

theorem showNewPinDialog_error (e : String) (v : verifier) (w : widget)
    (hw : v.verificationWarning = some w) :
    ∃ v', showNewPinDialog (.error e) v = some v' ∧ v'.state = .smpErr ∧
      v'.notified = v.notified ++ ["CannotVerifyWithSMP"] ∧
      v'.sessionCalls = v.sessionCalls ++
        [sessionCall.StartSMP v.peerJid v.currentResource pinQuestion ""] := by
  simp [showNewPinDialog, createPIN, smpError, disableNotifications, onVerificationWarning, hw,
    showNotificationWhenWeCannotGeneratePINForSMP, pinQuestion]

/-- C13 (failing input): when the random source fails, `showNewPinDialog` puts
the verifier into state `smpErr` and shows the failure notification, and then
goes on to call `session.StartSMP`, with the empty string as the secret. -/
theorem C13_failed_pin_still_starts_smp :
    (showNewPinDialog (.error "no entropy") startedVerifier).map (fun v => v.state) =
      some .smpErr ∧
    (showNewPinDialog (.error "no entropy") startedVerifier).map (fun v => v.notified) =
      some ["StartVerificationNotification", "CannotVerifyWithSMP"] ∧
    (showNewPinDialog (.error "no entropy") startedVerifier).map (fun v => v.sessionCalls) =
      some [sessionCall.StartSMP "peer@example.org" "laptop" pinQuestion ""] ∧
    verifyButtonClicked (.error "no entropy") startedVerifier =
      showNewPinDialog (.error "no entropy") startedVerifier := by
  refine ⟨by decide, by decide, by decide, by decide⟩

/-- C14 (as stated): the verifier waits for the peer after a first start; when
the start-verification notification is put up again and its verify button is
pressed, a second PIN is generated and `StartSMP` is called a second time, and
so it is when the handler of the button runs on the waiting verifier as it is. -/
theorem C14_second_start_while_waiting :
    waitingVerifier.map (fun v => v.state) = some .waitingForAnswerFromPeer ∧
    ((waitingVerifier.map buildStartVerificationNotification).bind
      (verifyButtonClicked (.ok 654321))).map (fun v => (v.state, v.pinLabel, v.sessionCalls)) =
      some (.waitingForAnswerFromPeer, "654321",
        [sessionCall.StartSMP "peer@example.org" "laptop" pinQuestion "123456",
         sessionCall.StartSMP "peer@example.org" "laptop" pinQuestion "654321"]) ∧
    (waitingVerifier.bind (verifyButtonClicked (.ok 654321))).map (fun v => v.sessionCalls) =
      some [sessionCall.StartSMP "peer@example.org" "laptop" pinQuestion "123456",
        sessionCall.StartSMP "peer@example.org" "laptop" pinQuestion "654321"] := by
  refine ⟨by decide, by decide, by decide⟩

/-- C14 (amended): entering state `waitingForAnswerFromPeer` hides the
start-verification notification; the handler of the verify button does not look
at the state: with a PIN dialog open it only presents that dialog, and with no
PIN dialog open it generates a new PIN and calls `StartSMP` with it, the state
staying what it was. -/
theorem C14_start_is_gated_by_the_notification_only (v : verifier) (w : widget)
    (hw : v.verificationWarning = some w) :
    (∃ v', showWaitingForPeerToCompleteSMPDialog v = some v' ∧
      v'.state = .waitingForAnswerFromPeer ∧ v'.verificationWarning = some w.Hide ∧
      v'.sessionCalls = v.sessionCalls) ∧
    (∀ (rand : Except String Nat) (d : widget), v.newPinDialog = some d →
      verifyButtonClicked rand v = some { v with newPinDialog := some d.Show }) ∧
    (∀ n : Nat, v.newPinDialog = none →
      ∃ v', verifyButtonClicked (.ok n) v = some v' ∧ v'.state = v.state ∧
        v'.pinLabel = Sprintf06d n ∧
        v'.sessionCalls = v.sessionCalls ++
          [sessionCall.StartSMP v.peerJid v.currentResource pinQuestion (Sprintf06d n)]) := by
  refine ⟨?_, ?_, ?_⟩
  · simp [showWaitingForPeerToCompleteSMPDialog, disableNotifications, onVerificationWarning, hw]
  · intro rand d hd
    simp [verifyButtonClicked, hd]
  · intro n hn
    simp [verifyButtonClicked, hn, showNewPinDialog, createPIN, pinQuestion]

theorem C14_start_is_gated_by_the_notification_only_witness :
    startedVerifier.verificationWarning = some widget.shown ∧
    startedVerifier.newPinDialog = none ∧
    (∃ v', showWaitingForPeerToCompleteSMPDialog startedVerifier = some v' ∧
      v'.state = .waitingForAnswerFromPeer ∧
      v'.verificationWarning = some widget.shown.Hide ∧
      v'.sessionCalls = startedVerifier.sessionCalls) ∧
    (∃ v', verifyButtonClicked (.ok 42) startedVerifier = some v' ∧
      v'.state = startedVerifier.state ∧ v'.pinLabel = Sprintf06d 42 ∧
      v'.sessionCalls = startedVerifier.sessionCalls ++
        [sessionCall.StartSMP startedVerifier.peerJid startedVerifier.currentResource
          pinQuestion (Sprintf06d 42)]) ∧
    verifyButtonClicked (.ok 42) { startedVerifier with newPinDialog := some widget.hidden } =
      some { startedVerifier with newPinDialog := some widget.hidden.Show } :=
  ⟨rfl, rfl,
   (C14_start_is_gated_by_the_notification_only startedVerifier widget.shown rfl).1,
   (C14_start_is_gated_by_the_notification_only startedVerifier widget.shown rfl).2.2 42 rfl,
   (C14_start_is_gated_by_the_notification_only
     { startedVerifier with newPinDialog := some widget.hidden } widget.shown rfl).2.1
     (.ok 42) widget.hidden rfl⟩

/-- C15 (as stated): the verifier waits for the peer as initiator; after
`handle` of a `SecretNeeded` event its state is `peerRequestsSMP`, not
`waitingForAnswerFromPeer`. -/
theorem C15_secret_needed_overrides_waiting :
    waitingVerifier.map (fun v => v.state) = some .waitingForAnswerFromPeer ∧
    (waitingVerifier.bind (handle .SecretNeeded)).map (fun v => v.state) =
      some .peerRequestsSMP ∧
    (waitingVerifier.bind (handle .SecretNeeded)).map (fun v => v.state) ≠
      some .waitingForAnswerFromPeer := by
  refine ⟨by decide, by decide, by decide⟩

/-- C15 (amended): when `handle` receives a `SecretNeeded` event, also in state
`waitingForAnswerFromPeer`, the responder path takes over: the state becomes
`peerRequestsSMP`, the start-verification notification is hidden and the
request info bar of the peer is put up, while the waiting info bar, the PIN
dialogs and the calls made on the session stay as they are. -/
theorem C15_secret_needed_sets_peerRequestsSMP (v : verifier) (w : widget)
    (hw : v.verificationWarning = some w) :
    ∃ v', handle .SecretNeeded v = some v' ∧
      v'.state = .peerRequestsSMP ∧
      v'.verificationWarning = some w.Hide ∧
      v'.peerRequestsSMP = some widget.shown ∧
      v'.notified = v.notified ++ ["PeerRequestsSMP"] ∧
      v'.waitingForSMP = v.waitingForSMP ∧
      v'.newPinDialog = v.newPinDialog ∧
      v'.enterPinDialog = v.enterPinDialog ∧
      v'.sessionCalls = v.sessionCalls := by
  simp [handle, displayRequestForSecret, disableNotifications, onVerificationWarning, hw]

theorem C15_secret_needed_sets_peerRequestsSMP_witness :
    startedVerifier.verificationWarning = some widget.shown ∧
    ∃ v', handle .SecretNeeded startedVerifier = some v' ∧
      v'.state = .peerRequestsSMP ∧
      v'.verificationWarning = some widget.shown.Hide ∧
      v'.peerRequestsSMP = some widget.shown ∧
      v'.notified = startedVerifier.notified ++ ["PeerRequestsSMP"] ∧
      v'.waitingForSMP = startedVerifier.waitingForSMP ∧
      v'.newPinDialog = startedVerifier.newPinDialog ∧
      v'.enterPinDialog = startedVerifier.enterPinDialog ∧
      v'.sessionCalls = startedVerifier.sessionCalls :=
  ⟨rfl, C15_secret_needed_sets_peerRequestsSMP startedVerifier widget.shown rfl⟩

/-- C16 (as stated): cancelling while waiting for the peer leaves the verifier in
state `cancelingSMP`, and cancelling the request of the peer leaves it in state
`peerRequestsSMP`; neither ends in state `unverified`. -/
theorem C16_cancel_does_not_return_to_unverified :
    waitingVerifier.map (fun v => v.state) = some .waitingForAnswerFromPeer ∧
    (waitingVerifier.bind waitingCancelClicked).map (fun v => v.state) = some .cancelingSMP ∧
    requestedVerifier.map (fun v => v.state) = some .peerRequestsSMP ∧
    (requestedVerifier.bind requestCancelClicked).map (fun v => v.state) =
      some .peerRequestsSMP ∧
    (waitingVerifier.bind waitingCancelClicked).map (fun v => v.state) ≠ some .unverified ∧
    (requestedVerifier.bind requestCancelClicked).map (fun v => v.state) ≠
      some .unverified := by
  refine ⟨by decide, by decide, by decide, by decide, by decide, by decide⟩

theorem verifyButtonClicked_fresh (n : Nat) (u : verifier) (h : u.newPinDialog = none) :
    ∃ u', verifyButtonClicked (.ok n) u = some u' ∧ u'.state = u.state ∧
      u'.pinLabel = Sprintf06d n ∧
      u'.sessionCalls = u.sessionCalls ++
        [sessionCall.StartSMP u.peerJid u.currentResource pinQuestion (Sprintf06d n)] := by
  simp [verifyButtonClicked, h, showNewPinDialog, createPIN]

theorem removeInProgressNotifications_fields (u : verifier) :
    (removeInProgressNotifications u).state = u.state ∧
    (removeInProgressNotifications u).peerRequestsSMP = none ∧
    (removeInProgressNotifications u).waitingForSMP = none ∧
    (removeInProgressNotifications u).newPinDialog = u.newPinDialog ∧
    (removeInProgressNotifications u).enterPinDialog = u.enterPinDialog ∧
    (removeInProgressNotifications u).verificationWarning = u.verificationWarning ∧
    (removeInProgressNotifications u).sessionCalls = u.sessionCalls ∧
    (removeInProgressNotifications u).notified = u.notified ∧
    (removeInProgressNotifications u).peerJid = u.peerJid ∧
    (removeInProgressNotifications u).currentResource = u.currentResource := by
  unfold removeInProgressNotifications
  cases hp : u.peerRequestsSMP <;> cases hq : u.waitingForSMP <;> simp [hp, hq]

theorem waitingCancelClicked_spec (v : verifier) (w : widget)
    (hw : v.verificationWarning = some w) :
    ∃ v', waitingCancelClicked v = some v' ∧
      v'.state = .cancelingSMP ∧
      v'.peerRequestsSMP = none ∧ v'.waitingForSMP = none ∧
      v'.verificationWarning = some w.Show ∧
      v'.newPinDialog = v.newPinDialog ∧
      v'.sessionCalls = v.sessionCalls ∧
      v'.peerJid = v.peerJid ∧ v'.currentResource = v.currentResource := by
  obtain ⟨hs, hp, hq, hn, _, hv, hc, _, hj, hr⟩ :=
    removeInProgressNotifications_fields { v with state := .cancelingSMP }
  have hv' : (removeInProgressNotifications
      { v with state := .cancelingSMP }).verificationWarning = some w := by
    rw [hv]; exact hw
  refine ⟨{ removeInProgressNotifications { v with state := .cancelingSMP } with
      verificationWarning := some w.Show }, ?_, hs, hp, hq, rfl, hn, hc, hj, hr⟩
  simp [waitingCancelClicked, disableNotifications, onVerificationWarning, hv']

theorem onVerificationWarning_some (f : widget → widget) (u u' : verifier)
    (h : onVerificationWarning f u = some u') :
    ∃ w, u.verificationWarning = some w ∧ u' = { u with verificationWarning := some (f w) } := by
  unfold onVerificationWarning at h
  cases hw : u.verificationWarning with
  | none => simp [hw] at h
  | some w =>
    simp only [hw, Option.some.injEq] at h
    exact ⟨w, rfl, h.symm⟩

theorem onVerificationWarning_state (f : widget → widget) (u u' : verifier)
    (h : onVerificationWarning f u = some u') : u'.state = u.state := by
  obtain ⟨w, _, rfl⟩ := onVerificationWarning_some f u u' h
  rfl

theorem disableNotifications_state (u u' : verifier) (h : disableNotifications u = some u') :
    u'.state = u.state := by
  unfold disableNotifications at h
  have hr := (removeInProgressNotifications_fields u).1
  cases hs : u.state <;> simp only [hs] at h
  · cases h; exact hs
  · rw [onVerificationWarning_state _ _ _ h]; exact hs
  · rw [onVerificationWarning_state _ _ _ h]; exact hs
  · cases h; rw [hr]; exact hs
  · rw [onVerificationWarning_state _ _ _ h, hr]; exact hs
  · rw [onVerificationWarning_state _ _ _ h, hr]; exact hs
  · rw [onVerificationWarning_state _ _ _ h]; exact hs
  · cases h; rw [hr]; exact hs

theorem showWaiting_state (u u' : verifier)
    (h : showWaitingForPeerToCompleteSMPDialog u = some u') :
    u'.state = .waitingForAnswerFromPeer := by
  unfold showWaitingForPeerToCompleteSMPDialog at h
  rw [Option.map_eq_some'] at h
  obtain ⟨a, ha, rfl⟩ := h
  exact disableNotifications_state _ _ ha

theorem apply_state (op : verifierOp) (v v' : verifier) (h : op.apply v = some v') :
    v'.state = v.state ∨ v'.state ≠ .unverified := by
  cases op with
  | buildStartVerificationNotification =>
    simp only [verifierOp.apply, Option.some.injEq] at h
    subst h; exact Or.inl rfl
  | closeVerification => exact Or.inl (onVerificationWarning_state _ _ _ h)
  | verifyButtonClicked rand =>
    simp only [verifierOp.apply, verifyButtonClicked] at h
    split at h
    · simp only [Option.some.injEq] at h
      subst h; exact Or.inl rfl
    · cases rand with
      | ok n =>
        simp only [showNewPinDialog, createPIN, Option.map_some', Option.some.injEq] at h
        subst h; exact Or.inl rfl
      | error e =>
        simp only [showNewPinDialog, createPIN, smpError, Option.map_map, Option.map_eq_some']
          at h
        obtain ⟨a, ha, rfl⟩ := h
        right
        have := disableNotifications_state _ _ ha
        simp only [Function.comp, showNotificationWhenWeCannotGeneratePINForSMP]
        rw [this]; simp
  | newPinDialogClosed =>
    simp only [verifierOp.apply, newPinDialogClosed] at h
    split at h
    · unfold showSMPHasAlreadyStarted at h
      simp only at h
      split at h
      · cases h
      · simp only [Option.some.injEq] at h
        subst h; exact Or.inl rfl
    · rw [Option.bind_eq_some] at h
      obtain ⟨a, ha, hb⟩ := h
      have hst := showWaiting_state _ _ ha
      split at hb
      · cases hb
      · simp only [Option.some.injEq] at hb
        subst hb; right; simp [hst]
  | waitingCancelClicked =>
    simp only [verifierOp.apply, waitingCancelClicked] at h
    rw [Option.bind_eq_some] at h
    obtain ⟨a, ha, hb⟩ := h
    right
    rw [onVerificationWarning_state _ _ _ hb, disableNotifications_state _ _ ha]
    simp
  | verificationButtonClicked =>
    simp only [verifierOp.apply, verificationButtonClicked, Option.some.injEq] at h
    subst h
    left
    split <;> rfl
  | enterPinDialogClosed pin =>
    simp only [verifierOp.apply, enterPinDialogClosed] at h
    rw [Option.bind_eq_some] at h
    obtain ⟨a, _, hb⟩ := h
    rw [Option.bind_eq_some] at hb
    obtain ⟨b, hb1, hb2⟩ := hb
    have hst := showWaiting_state _ _ hb1
    split at hb2
    · cases hb2
    · simp only [Option.some.injEq] at hb2
      subst hb2; right; simp [hst]
  | requestCancelClicked =>
    simp only [verifierOp.apply, requestCancelClicked] at h
    split at h
    · cases h
    · exact Or.inl ((onVerificationWarning_state _ _ _ h).trans rfl)
  | tryLaterClicked => exact Or.inl (disableNotifications_state _ _ h)
  | handle ev =>
    right
    cases ev with
    | SecretNeeded =>
      simp only [verifierOp.apply, handle, displayRequestForSecret, Option.map_eq_some'] at h
      obtain ⟨a, ha, rfl⟩ := h
      have := disableNotifications_state _ _ ha
      simp only
      rw [this]; simp
    | Success =>
      simp only [verifierOp.apply, handle, displayVerificationSuccess] at h
      rw [disableNotifications_state _ _ h]; simp
    | Failure =>
      simp only [verifierOp.apply, handle, displayVerificationFailure, Option.some.injEq] at h
      subst h; simp

theorem applyVerifierOps_state (ops : List verifierOp) :
    ∀ v v' : verifier, applyVerifierOps ops v = some v' → v.state ≠ .unverified →
      v'.state ≠ .unverified := by
  induction ops with
  | nil =>
    intro v v' h hv
    simp only [applyVerifierOps, Option.some.injEq] at h
    subst h; exact hv
  | cons op rest ih =>
    intro v v' h hv
    simp only [applyVerifierOps] at h
    rw [Option.bind_eq_some] at h
    obtain ⟨a, ha, hb⟩ := h
    refine ih a v' hb ?_
    rcases apply_state op v a ha with h1 | h1
    · rw [h1]; exact hv
    · exact h1

theorem waitingCancelClicked_eq (v : verifier) (w : widget)
    (hw : v.verificationWarning = some w) :
    waitingCancelClicked v = some
      { v with
        state := .cancelingSMP
        peerRequestsSMP := none
        waitingForSMP := none
        verificationWarning := some w.Show } := by
  rcases v with ⟨st, jid, res, np, ep, wf, pr, vw, pl, sc, nt, dl⟩
  simp only at hw
  subst hw
  cases pr <;> cases wf <;>
    simp [waitingCancelClicked, disableNotifications, removeInProgressNotifications,
      onVerificationWarning]

theorem requestCancelClicked_eq (v : verifier) (w b : widget)
    (hw : v.verificationWarning = some w) (hb : v.peerRequestsSMP = some b) :
    requestCancelClicked v = some
      { v with peerRequestsSMP := none, verificationWarning := some w.Show } := by
  simp [requestCancelClicked, hb, onVerificationWarning, hw]

theorem widget_Show (w : widget) (h : w ≠ .destroyed) : w.Show = .shown := by
  cases w <;> first | rfl | exact absurd rfl h

/-- C16 (amended): on a verifier whose start-verification notification has been
built, the cancel button of the waiting info bar puts the verifier into state
`cancelingSMP`, clears both in-progress info bars and calls `Show` on the
start-verification notification, changing nothing else; the cancel button of
the request info bar clears that info bar and calls `Show` on the
start-verification notification, the state, the waiting info bar and
everything else staying what they were.  `Show` makes the notification visible
again unless it had been destroyed, in which case it stays destroyed.  After
either cancel no sequence of later happenings brings the state back to
`unverified`.  In both cases, with no PIN dialog open, the handler of the
verify button starts a fresh verification at once: it generates a new PIN,
calls `StartSMP` with it for the same peer and resource and shows the PIN
dialog, the state staying what the cancel left. -/
theorem C16_cancel_clears_and_offers_restart (v : verifier) (w : widget)
    (hw : v.verificationWarning = some w) :
    waitingCancelClicked v = some
      { v with
        state := .cancelingSMP
        peerRequestsSMP := none
        waitingForSMP := none
        verificationWarning := some w.Show } ∧
    (∀ b : widget, v.peerRequestsSMP = some b →
      requestCancelClicked v = some
        { v with peerRequestsSMP := none, verificationWarning := some w.Show }) ∧
    (w ≠ .destroyed → w.Show = .shown) ∧
    (w = .destroyed → w.Show = .destroyed) ∧
    (∀ (v' v'' : verifier) (ops : List verifierOp), waitingCancelClicked v = some v' →
      applyVerifierOps ops v' = some v'' → v''.state ≠ .unverified) ∧
    (v.state ≠ .unverified →
      ∀ (v' v'' : verifier) (ops : List verifierOp), requestCancelClicked v = some v' →
        applyVerifierOps ops v' = some v'' → v''.state ≠ .unverified) ∧
    (v.newPinDialog = none → ∀ n : Nat,
      (waitingCancelClicked v).bind (verifyButtonClicked (.ok n)) = some
        { v with
          state := .cancelingSMP
          peerRequestsSMP := none
          waitingForSMP := none
          verificationWarning := some w.Show
          newPinDialog := some widget.shown
          pinLabel := Sprintf06d n
          sessionCalls := v.sessionCalls ++
            [sessionCall.StartSMP v.peerJid v.currentResource pinQuestion (Sprintf06d n)] }) ∧
    (v.newPinDialog = none → ∀ b : widget, v.peerRequestsSMP = some b → ∀ n : Nat,
      (requestCancelClicked v).bind (verifyButtonClicked (.ok n)) = some
        { v with
          peerRequestsSMP := none
          verificationWarning := some w.Show
          newPinDialog := some widget.shown
          pinLabel := Sprintf06d n
          sessionCalls := v.sessionCalls ++
            [sessionCall.StartSMP v.peerJid v.currentResource pinQuestion (Sprintf06d n)] }) := by
  have hwait := waitingCancelClicked_eq v w hw
  refine ⟨hwait, fun b hb => requestCancelClicked_eq v w b hw hb, widget_Show w, ?_, ?_, ?_, ?_, ?_⟩
  · intro h; subst h; rfl
  · intro v' v'' ops h1 h2
    refine applyVerifierOps_state ops v' v'' h2 ?_
    rw [hwait, Option.some.injEq] at h1
    subst h1
    simp
  · intro hv v' v'' ops h1 h2
    refine applyVerifierOps_state ops v' v'' h2 ?_
    unfold requestCancelClicked at h1
    split at h1
    · cases h1
    · rw [onVerificationWarning_state _ _ _ h1]; exact hv
  · intro hn n
    rw [hwait]
    simp [verifyButtonClicked, hn, showNewPinDialog, createPIN, widget.Show]
  · intro hn b hb n
    rw [requestCancelClicked_eq v w b hw hb]
    simp [verifyButtonClicked, hn, showNewPinDialog, createPIN, widget.Show]

theorem C16_cancel_clears_and_offers_restart_witness :
    (∃ v, waitingVerifier = some v ∧ v.state = .waitingForAnswerFromPeer ∧
      v.verificationWarning = some widget.hidden ∧ v.newPinDialog = none ∧
      waitingCancelClicked v = some
        { v with
          state := .cancelingSMP
          waitingForSMP := none
          verificationWarning := some widget.shown } ∧
      (waitingCancelClicked v).bind (verifyButtonClicked (.ok 42)) = some
        { v with
          state := .cancelingSMP
          waitingForSMP := none
          verificationWarning := some widget.shown
          newPinDialog := some widget.shown
          pinLabel := "000042"
          sessionCalls :=
            [sessionCall.StartSMP "peer@example.org" "laptop" pinQuestion "123456",
             sessionCall.StartSMP "peer@example.org" "laptop" pinQuestion "000042"] }) ∧
    (∃ v, requestedVerifier = some v ∧ v.state = .peerRequestsSMP ∧
      v.verificationWarning = some widget.hidden ∧ v.newPinDialog = none ∧
      v.peerRequestsSMP = some widget.shown ∧
      requestCancelClicked v = some
        { v with peerRequestsSMP := none, verificationWarning := some widget.shown } ∧
      (requestCancelClicked v).bind (verifyButtonClicked (.ok 42)) = some
        { v with
          peerRequestsSMP := none
          verificationWarning := some widget.shown
          newPinDialog := some widget.shown
          pinLabel := "000042"
          sessionCalls :=
            [sessionCall.StartSMP "peer@example.org" "laptop" pinQuestion "000042"] }) ∧
    (requestedAfterSuccess.bind requestCancelClicked).map (fun v => v.verificationWarning) =
      some (some widget.destroyed) := by
  have h : waitingVerifier = some
      { state := .waitingForAnswerFromPeer
        peerJid := "peer@example.org"
        currentResource := "laptop"
        newPinDialog := none
        enterPinDialog := none
        waitingForSMP := some widget.shown
        peerRequestsSMP := none
        verificationWarning := some widget.hidden
        pinLabel := "123456"
        sessionCalls := [sessionCall.StartSMP "peer@example.org" "laptop" pinQuestion "123456"]
        notified := ["StartVerificationNotification", "WaitingSMPComplete"]
        dialogs := [] } := by decide
  have h' : requestedVerifier = some
      { state := .peerRequestsSMP
        peerJid := "peer@example.org"
        currentResource := "laptop"
        newPinDialog := none
        enterPinDialog := none
        waitingForSMP := none
        peerRequestsSMP := some widget.shown
        verificationWarning := some widget.hidden
        pinLabel := ""
        sessionCalls := []
        notified := ["StartVerificationNotification", "PeerRequestsSMP"]
        dialogs := [] } := by decide
  exact ⟨⟨_, h, rfl, rfl, rfl,
      (C16_cancel_clears_and_offers_restart _ widget.hidden rfl).1,
      (C16_cancel_clears_and_offers_restart _ widget.hidden rfl).2.2.2.2.2.2.1 rfl 42⟩,
    ⟨_, h', rfl, rfl, rfl, rfl,
      (C16_cancel_clears_and_offers_restart _ widget.hidden rfl).2.1 widget.shown rfl,
      (C16_cancel_clears_and_offers_restart _ widget.hidden rfl).2.2.2.2.2.2.2 rfl
        widget.shown rfl 42⟩,
    by decide⟩

/-! ## Known fingerprints: theorems -/

theorem trusted_after_ensure (p : peerRecord) (fp : List Nat) :
    HasTrustedFingerprint (EnsureHasFingerprint p fp).1 fp = HasTrustedFingerprint p fp := by
  unfold EnsureHasFingerprint
  by_cases h : hasFingerprint p fp = true
  · simp [h]
  · simp [h, HasTrustedFingerprint]

theorem trusted_is_known (p : peerRecord) (fp : List Nat)
    (h : HasTrustedFingerprint p fp = true) : hasFingerprint p fp = true := by
  unfold HasTrustedFingerprint at h
  unfold hasFingerprint
  rw [List.any_eq_true] at h ⊢
  obtain ⟨f, hf, hft⟩ := h
  rw [Bool.and_eq_true] at hft
  exact ⟨f, hf, hft.1⟩

theorem isVerified_known (fp : List Nat) (conf : accountConfig) (conv : conversationPane)
    (p : peerRecord) (hp : GetPeer conf conv.to_ = some p) :
    (isVerified (some fp) conf conv).1 = HasTrustedFingerprint p fp ∧
    (conv.hasSetNewFingerprint = false →
      (isVerified (some fp) conf conv).2.2.isNewFingerprint = !hasFingerprint p fp) := by
  constructor
  · simp only [isVerified, hp, Bool.true_and]
    exact trusted_after_ensure p fp
  · intro hs
    simp only [isVerified, hp, hs]
    unfold EnsureHasFingerprint
    by_cases h : hasFingerprint p fp = true
    · simp [h]
    · simp [h]

theorem isVerified_unknown (fp : List Nat) (conf : accountConfig) (conv : conversationPane)
    (hp : GetPeer conf conv.to_ = none) :
    (isVerified (some fp) conf conv).1 = false ∧
    (conv.hasSetNewFingerprint = false →
      (isVerified (some fp) conf conv).2.2.isNewFingerprint = false) := by
  constructor
  · simp [isVerified, hp]
  · intro hs
    simp [isVerified, hp, hs]

/-- C17 (as stated): for a peer that was unknown before the call, the first
`isVerified` leaves `isNewFingerprint` false, although the fingerprint had not
been recorded for the peer. -/
theorem C17_unknown_peer_is_not_flagged_new :
    GetPeer [] (paneWith [] []).to_ = none ∧
    (paneWith [] []).hasSetNewFingerprint = false ∧
    (isVerified (some [1, 2, 3]) [] (paneWith [] [])).2.2.isNewFingerprint = false ∧
    (isVerified (some [1, 2, 3]) [] (paneWith [] [])).2.2.hasSetNewFingerprint = true ∧
    (isVerified (some [1, 2, 3]) [] (paneWith [] [])).2.1 =
      [{ userID := "peer@example.org",
         fingerprints := [{ fingerprint := [1, 2, 3], trusted := false }] }] := by
  refine ⟨by decide, by decide, by decide, by decide, by decide⟩

/-- C17 (amended): on the first `isVerified` call on a pane, `isNewFingerprint`
becomes true exactly when the peer was known before the call and the observed
fingerprint had not been recorded for it; for a peer unknown before the call it
becomes false.  On every call the result is true exactly when the peer was
known and held the fingerprint as trusted before the call, so it is false
whenever the peer or the fingerprint was unknown; without a conversation the
result is false and nothing changes. -/
theorem C17_isVerified_new_and_trusted (fp : List Nat) (conf : accountConfig)
    (conv : conversationPane) :
    (conv.hasSetNewFingerprint = false →
      ((isVerified (some fp) conf conv).2.2.isNewFingerprint = true ↔
        ∃ p, GetPeer conf conv.to_ = some p ∧ hasFingerprint p fp = false)) ∧
    ((isVerified (some fp) conf conv).1 = true ↔
      ∃ p, GetPeer conf conv.to_ = some p ∧ HasTrustedFingerprint p fp = true) ∧
    (GetPeer conf conv.to_ = none → (isVerified (some fp) conf conv).1 = false) ∧
    (∀ p, GetPeer conf conv.to_ = some p → hasFingerprint p fp = false →
      (isVerified (some fp) conf conv).1 = false) ∧
    isVerified none conf conv = (false, conf, conv) := by
  refine ⟨?_, ?_, ?_, ?_, rfl⟩
  · intro hs
    cases hp : GetPeer conf conv.to_ with
    | none =>
      rw [(isVerified_unknown fp conf conv hp).2 hs]
      simp
    | some p =>
      rw [(isVerified_known fp conf conv p hp).2 hs]
      simp
  · cases hp : GetPeer conf conv.to_ with
    | none =>
      rw [(isVerified_unknown fp conf conv hp).1]
      simp
    | some p =>
      rw [(isVerified_known fp conf conv p hp).1]
      simp
  · intro hp
    exact (isVerified_unknown fp conf conv hp).1
  · intro p hp hfp
    rw [(isVerified_known fp conf conv p hp).1]
    cases ht : HasTrustedFingerprint p fp with
    | false => rfl
    | true => rw [trusted_is_known p fp ht] at hfp; cases hfp

theorem C17_isVerified_new_and_trusted_witness :
    (paneWith [] []).hasSetNewFingerprint = false ∧
    (∃ p, GetPeer knownPeerConfig (paneWith [] []).to_ = some p ∧ hasFingerprint p [9] = false) ∧
    (isVerified (some [9]) knownPeerConfig (paneWith [] [])).2.2.isNewFingerprint = true ∧
    (isVerified (some [9]) knownPeerConfig (paneWith [] [])).1 = false ∧
    (isVerified (some [1, 2, 3]) knownPeerConfig (paneWith [] [])).1 = true :=
  ⟨rfl, ⟨_, rfl, by decide⟩,
   ((C17_isVerified_new_and_trusted [9] knownPeerConfig (paneWith [] [])).1 rfl).mpr
     ⟨_, rfl, by decide⟩,
   (C17_isVerified_new_and_trusted [9] knownPeerConfig (paneWith [] [])).2.2.2.1 _ rfl
     (by decide),
   by decide⟩

/-! ## The responder: theorems -/

theorem enterPinDialogClosed_steps (pin : String) (v : verifier) :
    enterPinDialogClosed pin v =
      (runSteps (enterPinDialogClosedSteps pin) v).bind List.getLast? := by
  rcases v with ⟨st, jid, res, np, ep, wf, pr, vw, pl, sc, nt, dl⟩
  cases vw <;> cases ep <;> cases pr <;> cases wf <;>
    simp [enterPinDialogClosed, enterPinDialogClosedSteps, runSteps, disableNotifications,
      showWaitingForPeerToCompleteSMPDialog, removeInProgressNotifications,
      onVerificationWarning]

/-- C21: when the user submits a PIN in the enter-PIN dialog while the verifier
is in state `peerRequestsSMP` (the start-verification notification exists, as
it does once `handle` has taken a `SecretNeeded` event), the statements of the
handler run without a panic; the state is `finishedAnsweringPeer` after the
first two of them and `waitingForAnswerFromPeer` from the third on, which is
the state the handler ends in; the calls on the session are those made before
followed by one `FinishSMP` with the peer, the resource and exactly the text
the user entered, so `FinishSMP` is called exactly once, and the enter-PIN
dialog is gone. -/
theorem C21_submitted_pin_is_forwarded_once (pin : String) (v : verifier)
    (hstate : v.state = .peerRequestsSMP)
    (hwarning : v.verificationWarning.isSome = true)
    (hdialog : v.enterPinDialog.isSome = true) :
    ∃ trace r,
      runSteps (enterPinDialogClosedSteps pin) v = some trace ∧
      v.state :: trace.map (fun s => s.state) =
        [.peerRequestsSMP, .finishedAnsweringPeer, .finishedAnsweringPeer,
         .waitingForAnswerFromPeer, .waitingForAnswerFromPeer, .waitingForAnswerFromPeer,
         .waitingForAnswerFromPeer] ∧
      trace.map (fun s => s.sessionCalls) =
        [v.sessionCalls, v.sessionCalls, v.sessionCalls,
         v.sessionCalls ++ [sessionCall.FinishSMP v.peerJid v.currentResource pin],
         v.sessionCalls ++ [sessionCall.FinishSMP v.peerJid v.currentResource pin],
         v.sessionCalls ++ [sessionCall.FinishSMP v.peerJid v.currentResource pin]] ∧
      trace.getLast? = some r ∧
      enterPinDialogClosed pin v = some r ∧
      r.state = .waitingForAnswerFromPeer ∧
      r.sessionCalls = v.sessionCalls ++ [sessionCall.FinishSMP v.peerJid v.currentResource pin] ∧
      (r.sessionCalls.filter sessionCall.isFinishSMP).length =
        (v.sessionCalls.filter sessionCall.isFinishSMP).length + 1 ∧
      r.enterPinDialog = none ∧
      r.peerRequestsSMP = none ∧
      r.waitingForSMP = some widget.shown := by
  rw [enterPinDialogClosed_steps]
  rcases v with ⟨st, jid, res, np, ep, wf, pr, vw, pl, sc, nt, dl⟩
  simp only at hstate
  subst hstate
  cases vw with
  | none => simp at hwarning
  | some w =>
    cases ep with
    | none => simp at hdialog
    | some d =>
      cases pr <;> cases wf <;>
        simp [enterPinDialogClosedSteps, runSteps, disableNotifications,
          showWaitingForPeerToCompleteSMPDialog, removeInProgressNotifications,
          onVerificationWarning, sessionCall.isFinishSMP]

theorem C21_submitted_pin_is_forwarded_once_witness :
    (requestedVerifier.map verificationButtonClicked = some pinEntryVerifier) ∧
    pinEntryVerifier.state = .peerRequestsSMP ∧
    enterPinDialogClosed "4711" pinEntryVerifier =
      some { newVerifier "peer@example.org" "laptop" with
        state := .waitingForAnswerFromPeer
        verificationWarning := some widget.hidden
        waitingForSMP := some widget.shown
        sessionCalls := [sessionCall.FinishSMP "peer@example.org" "laptop" "4711"]
        notified := ["StartVerificationNotification", "PeerRequestsSMP", "WaitingSMPComplete"] } ∧
    ∃ trace r,
      runSteps (enterPinDialogClosedSteps "4711") pinEntryVerifier = some trace ∧
      trace.getLast? = some r ∧
      r.state = .waitingForAnswerFromPeer ∧
      r.sessionCalls = [sessionCall.FinishSMP "peer@example.org" "laptop" "4711"] := by
  refine ⟨by decide, rfl, by decide, ?_⟩
  obtain ⟨trace, r, h1, _, _, h4, _, h6, h7, _⟩ :=
    C21_submitted_pin_is_forwarded_once "4711" pinEntryVerifier rfl rfl rfl
  exact ⟨trace, r, h1, h4, h6, h7⟩

/-! ## The latch of the new-fingerprint flag: theorems -/

theorem isVerified_pane (conversation : Option (List Nat)) (conf : accountConfig)
    (conv : conversationPane) :
    (isVerified conversation conf conv).2.2 = conv ∨
    ∃ isNew, (isVerified conversation conf conv).2.2 =
      { conv with isNewFingerprint := isNew, hasSetNewFingerprint := true } ∧
      conv.hasSetNewFingerprint = false := by
  cases conversation with
  | none => exact Or.inl rfl
  | some fp =>
    cases hs : conv.hasSetNewFingerprint with
    | true =>
      left
      cases hp : GetPeer conf conv.to_ <;> simp [isVerified, hp, hs]
    | false =>
      right
      cases hp : GetPeer conf conv.to_ with
      | none => exact ⟨false, by simp [isVerified, hp, hs], rfl⟩
      | some p => exact ⟨(EnsureHasFingerprint p fp).2, by simp [isVerified, hp, hs], rfl⟩

theorem isVerified_sets_latch (fp : List Nat) (conf : accountConfig) (conv : conversationPane) :
    (isVerified (some fp) conf conv).2.2.hasSetNewFingerprint = true := by
  cases hs : conv.hasSetNewFingerprint <;> cases hp : GetPeer conf conv.to_ <;>
    simp [isVerified, hp, hs]

theorem isVerified_latched (conversation : Option (List Nat)) (conf : accountConfig)
    (conv : conversationPane) (hs : conv.hasSetNewFingerprint = true) :
    fingerprintFlags (isVerified conversation conf conv).2.2 = fingerprintFlags conv := by
  rcases isVerified_pane conversation conf conv with h | ⟨_, _, h⟩
  · rw [h]
  · rw [hs] at h; cases h

theorem fingerprintFlags_markNow (env : Env) (conv : conversationPane) :
    fingerprintFlags (markNow env conv) = fingerprintFlags conv := rfl

theorem fingerprintFlags_reapOlderThan (t : Time) (conv : conversationPane) :
    fingerprintFlags (reapOlderThan t conv) = fingerprintFlags conv := by
  unfold reapOlderThan
  split <;> rfl

theorem fingerprintFlags_appendSentMessage (env : Env) (sent : sentMessage) (attention : Bool)
    (entries : List taggableText) (conv : conversationPane) :
    fingerprintFlags (appendSentMessage env sent attention entries conv) =
      fingerprintFlags conv := by
  unfold appendSentMessage doInUIThread
  by_cases h : sent.isDelayed = true
  · simp only [h, if_true]; rfl
  · simp only [h]; rfl

theorem fingerprintFlags_appendMessage (env : Env) (sent : sentMessage)
    (conv : conversationPane) :
    fingerprintFlags (appendMessage env sent conv) = fingerprintFlags conv := by
  unfold appendMessage
  exact fingerprintFlags_appendSentMessage env sent _ _ conv

theorem fingerprintFlags_displayNotification (env : Env) (notification : String)
    (conv : conversationPane) :
    fingerprintFlags (displayNotification env notification conv) = fingerprintFlags conv := by
  unfold displayNotification
  exact fingerprintFlags_appendSentMessage env _ _ _ _

theorem fingerprintFlags_sendMessage (env : Env) (answer : Int × Bool × Option sendError)
    (message : String) (conv : conversationPane) :
    fingerprintFlags (sendMessage env answer message conv).1 = fingerprintFlags conv := by
  obtain ⟨trace, delayed, err⟩ := answer
  cases err with
  | some e =>
    cases e with
    | other text => rfl
    | offline text => exact fingerprintFlags_displayNotification env _ conv
  | none =>
    simp only [sendMessage]
    rw [fingerprintFlags_appendMessage]
    cases delayed <;> rfl

theorem fingerprintFlags_replayTrace (env : Env) (ctrace : Int) (conv : conversationPane) :
    fingerprintFlags (replayTrace env ctrace conv).1 = fingerprintFlags conv := by
  cases h : conv.delayed.get ctrace with
  | none => rw [replayTrace_none env ctrace conv h]
  | some dm =>
    simp only [replayTrace, h, doInUIThread]
    split
    · show fingerprintFlags (markNow env (appendMessage env _ _)) = _
      rw [fingerprintFlags_markNow, fingerprintFlags_appendMessage]; rfl
    · rw [fingerprintFlags_markNow, fingerprintFlags_appendMessage]; rfl

theorem fingerprintFlags_replayAll (env : Env) (ks : List Int) :
    ∀ conv : conversationPane,
      fingerprintFlags (replayAll env ks conv).1 = fingerprintFlags conv := by
  induction ks with
  | nil => intro conv; rfl
  | cons k rest ih =>
    intro conv
    simp only [replayAll]
    rw [ih, fingerprintFlags_replayTrace]

theorem fingerprintFlags_appendPendingDelayed (env : Env) (conv : conversationPane) :
    fingerprintFlags (appendPendingDelayed env conv) = fingerprintFlags conv := by
  show fingerprintFlags (replayAll env conv.pendingDelayed { conv with pendingDelayed := [] }).1 = _
  rw [fingerprintFlags_replayAll]; rfl

theorem fingerprintFlags_delayedMessageSent (env : Env) (trace : Int)
    (conv : conversationPane) :
    fingerprintFlags (delayedMessageSent env trace conv) = fingerprintFlags conv := by
  unfold delayedMessageSent
  simp only
  split
  · rw [fingerprintFlags_appendPendingDelayed]; rfl
  · rfl

theorem fingerprintFlags_onHide (env : Env) (conv : conversationPane) :
    fingerprintFlags (onHide env conv) = fingerprintFlags conv := by
  show fingerprintFlags (reapOlderThan _ _) = _
  rw [fingerprintFlags_reapOlderThan]; rfl

theorem fingerprintFlags_onShow (env : Env) (conv : conversationPane) :
    fingerprintFlags (onShow env conv) = fingerprintFlags conv := by
  unfold onShow
  split
  · show fingerprintFlags (reapOlderThan _ _) = _
    rw [fingerprintFlags_reapOlderThan]; rfl
  · rfl

theorem fingerprintFlags_apply (env : Env) (op : paneOp) (conv : conversationPane) :
    fingerprintFlags (op.apply env conv) = fingerprintFlags conv := by
  cases op with
  | markNow => exact fingerprintFlags_markNow env conv
  | reapOlderThan t => exact fingerprintFlags_reapOlderThan t conv
  | appendMessage sent => exact fingerprintFlags_appendMessage env sent conv
  | displayNotification n => exact fingerprintFlags_displayNotification env n conv
  | sendMessage answer message => exact fingerprintFlags_sendMessage env answer message conv
  | storeDelayedMessage trace message => rfl
  | delayedMessageSent trace => exact fingerprintFlags_delayedMessageSent env trace conv
  | appendPendingDelayed => exact fingerprintFlags_appendPendingDelayed env conv
  | onHide => exact fingerprintFlags_onHide env conv
  | onShow => exact fingerprintFlags_onShow env conv

theorem fingerprintFlags_event (env : Env) (ev : paneEvent) (conv : conversationPane)
    (hs : conv.hasSetNewFingerprint = true) :
    fingerprintFlags (ev.apply env conv) = fingerprintFlags conv := by
  cases ev with
  | operation op => exact fingerprintFlags_apply env op conv
  | isVerified conversation conf => exact isVerified_latched conversation conf conv hs

theorem fingerprintFlags_applyEvents (env : Env) (evs : List paneEvent) :
    ∀ conv : conversationPane, conv.hasSetNewFingerprint = true →
      fingerprintFlags (applyEvents env evs conv) = fingerprintFlags conv := by
  induction evs with
  | nil => intro conv _; rfl
  | cons ev rest ih =>
    intro conv hs
    have h := fingerprintFlags_event env ev conv hs
    simp only [applyEvents]
    rw [ih _ (by
      have h2 := congrArg Prod.snd h
      simp only [fingerprintFlags] at h2
      rw [h2]; exact hs), h]

theorem fingerprintFlags_unobserved (env : Env) (ev : paneEvent) (conv : conversationPane)
    (h : ev.observesFingerprint = false) :
    fingerprintFlags (ev.apply env conv) = fingerprintFlags conv := by
  cases ev with
  | operation op => exact fingerprintFlags_apply env op conv
  | isVerified conversation conf =>
    cases conversation with
    | none => rfl
    | some fp => simp [paneEvent.observesFingerprint] at h

theorem fingerprintFlags_unobserved_events (env : Env) (evs : List paneEvent) :
    ∀ conv : conversationPane, (∀ ev ∈ evs, ev.observesFingerprint = false) →
      fingerprintFlags (applyEvents env evs conv) = fingerprintFlags conv := by
  induction evs with
  | nil => intro conv _; rfl
  | cons ev rest ih =>
    intro conv h
    simp only [applyEvents]
    rw [ih _ (fun e he => h e (List.mem_cons_of_mem _ he)),
      fingerprintFlags_unobserved env ev conv (h ev (List.mem_cons_self _ _))]

/-- C22 (as stated): on a fresh pane a first call of `isVerified` that finds
no conversation writes neither flag, and the call after it, which observes an
unseen fingerprint of a known peer, changes both `isNewFingerprint` and
`hasSetNewFingerprint`. -/
theorem C22_first_call_without_conversation_sets_no_latch :
    fingerprintFlags (paneWith [] []) = (false, false) ∧
    fingerprintFlags (isVerified none knownPeerConfig (paneWith [] [])).2.2 = (false, false) ∧
    fingerprintFlags
      (isVerified (some [9]) knownPeerConfig
        (isVerified none knownPeerConfig (paneWith [] [])).2.2).2.2 = (true, true) := by
  refine ⟨by decide, by decide, by decide⟩

/-- C22 (amended): the flag `isNewFingerprint` is latched by the first call of
`isVerified` that finds the conversation.  On a pane on which the latch
`hasSetNewFingerprint` is not yet set, events that observe no fingerprint
(calls of `isVerified` that find no conversation, and the operations of the
pane) write neither flag; the first call of `isVerified` that observes a
fingerprint writes `isNewFingerprint` (true when the peer was known and the
fingerprint was not recorded for it, false otherwise, whatever the flag held
before) and sets the latch; after it every sequence of later events (calls of
`isVerified` with any fingerprint, or none, and any configuration, and the
operations of the pane) leaves both `isNewFingerprint` and
`hasSetNewFingerprint` as that call left them.  No call of `isVerified`
changes any other field of the pane, a call changes `isNewFingerprint` only
when the latch was not set before and is set after it, no operation of the
pane writes either field, and a call that finds no conversation leaves the
pane as it is. -/
theorem C22_isNewFingerprint_is_latched (env : Env) (fp : List Nat) (conf : accountConfig)
    (conv : conversationPane) (before later : List paneEvent)
    (hfirst : conv.hasSetNewFingerprint = false)
    (hbefore : ∀ ev ∈ before, ev.observesFingerprint = false) :
    (applyEvents env before conv).isNewFingerprint = conv.isNewFingerprint ∧
    (applyEvents env before conv).hasSetNewFingerprint = false ∧
    (isVerified (some fp) conf (applyEvents env before conv)).2.2.isNewFingerprint =
      (match GetPeer conf (applyEvents env before conv).to_ with
       | some p => !hasFingerprint p fp
       | none => false) ∧
    (isVerified (some fp) conf (applyEvents env before conv)).2.2.hasSetNewFingerprint = true ∧
    (applyEvents env later
        (isVerified (some fp) conf (applyEvents env before conv)).2.2).isNewFingerprint =
      (isVerified (some fp) conf (applyEvents env before conv)).2.2.isNewFingerprint ∧
    (applyEvents env later
      (isVerified (some fp) conf (applyEvents env before conv)).2.2).hasSetNewFingerprint =
        true ∧
    (∀ (c : Option (List Nat)) (conf2 : accountConfig) (p : conversationPane),
      p.hasSetNewFingerprint = true →
        (isVerified c conf2 p).2.2.isNewFingerprint = p.isNewFingerprint ∧
        (isVerified c conf2 p).2.2.hasSetNewFingerprint = true) ∧
    (∀ (c : Option (List Nat)) (conf2 : accountConfig) (p : conversationPane),
      (isVerified c conf2 p).2.2.isNewFingerprint ≠ p.isNewFingerprint →
        p.hasSetNewFingerprint = false ∧
        (isVerified c conf2 p).2.2.hasSetNewFingerprint = true) ∧
    (∀ (c : Option (List Nat)) (conf2 : accountConfig) (p : conversationPane),
      { (isVerified c conf2 p).2.2 with
        isNewFingerprint := p.isNewFingerprint
        hasSetNewFingerprint := p.hasSetNewFingerprint } = p) ∧
    (∀ (op : paneOp) (p : conversationPane),
      (op.apply env p).isNewFingerprint = p.isNewFingerprint ∧
      (op.apply env p).hasSetNewFingerprint = p.hasSetNewFingerprint) ∧
    (∀ (conf2 : accountConfig) (p : conversationPane), (isVerified none conf2 p).2.2 = p) := by
  have hstart := fingerprintFlags_unobserved_events env before conv hbefore
  have hopen : (applyEvents env before conv).hasSetNewFingerprint = false := by
    have h := congrArg Prod.snd hstart
    simp only [fingerprintFlags] at h
    rw [h]; exact hfirst
  have hset := isVerified_sets_latch fp conf (applyEvents env before conv)
  have hlater := fingerprintFlags_applyEvents env later _ hset
  refine ⟨congrArg Prod.fst hstart, hopen, ?_, hset, congrArg Prod.fst hlater, ?_, ?_, ?_, ?_,
    ?_, fun _ _ => rfl⟩
  · cases hp : GetPeer conf (applyEvents env before conv).to_ with
    | none => exact (isVerified_unknown fp conf _ hp).2 hopen
    | some p => exact (isVerified_known fp conf _ p hp).2 hopen
  · have h := congrArg Prod.snd hlater
    simp only [fingerprintFlags] at h
    rw [h]; exact hset
  · intro c conf2 p hp
    have h := isVerified_latched c conf2 p hp
    refine ⟨congrArg Prod.fst h, ?_⟩
    have h2 := congrArg Prod.snd h
    simp only [fingerprintFlags] at h2
    rw [h2]; exact hp
  · intro c conf2 p hne
    rcases isVerified_pane c conf2 p with h | ⟨b, h, hp⟩
    · rw [h] at hne; exact absurd rfl hne
    · exact ⟨hp, by rw [h]⟩
  · intro c conf2 p
    rcases isVerified_pane c conf2 p with h | ⟨b, h, _⟩
    · rw [h]
    · rw [h]
  · intro op p
    have h := fingerprintFlags_apply env op p
    exact ⟨congrArg Prod.fst h, congrArg Prod.snd h⟩

theorem C22_isNewFingerprint_is_latched_witness :
    (paneWith [] []).hasSetNewFingerprint = false ∧
    (∀ ev ∈ earlierEvents, ev.observesFingerprint = false) ∧
    (applyEvents sampleEnv earlierEvents (paneWith [] [])).hasSetNewFingerprint = false ∧
    (isVerified (some [9]) knownPeerConfig
      (applyEvents sampleEnv earlierEvents (paneWith [] []))).2.2.isNewFingerprint = true ∧
    (applyEvents sampleEnv laterEvents
      (isVerified (some [9]) knownPeerConfig
        (applyEvents sampleEnv earlierEvents (paneWith [] []))).2.2).isNewFingerprint = true ∧
    (applyEvents sampleEnv laterEvents
      (isVerified (some [9]) knownPeerConfig
        (applyEvents sampleEnv earlierEvents (paneWith [] []))).2.2).hasSetNewFingerprint =
          true ∧
    (isVerified (some [1, 2, 3]) knownPeerConfig
      (isVerified (some [9]) knownPeerConfig (paneWith [] [])).2.2).2.2.isNewFingerprint = true :=
  ⟨rfl, by decide,
   (C22_isNewFingerprint_is_latched sampleEnv [9] knownPeerConfig (paneWith [] [])
      earlierEvents laterEvents rfl (by decide)).2.1,
   by decide,
   ((C22_isNewFingerprint_is_latched sampleEnv [9] knownPeerConfig (paneWith [] [])
      earlierEvents laterEvents rfl (by decide)).2.2.2.2.1).trans (by decide),
   (C22_isNewFingerprint_is_latched sampleEnv [9] knownPeerConfig (paneWith [] [])
      earlierEvents laterEvents rfl (by decide)).2.2.2.2.2.1,
   by decide⟩

end Coyim
